import Mathlib

/-!
Shallow embedding of the core of the `prepack` partial evaluator
(files `src/environment.js`, `src/evaluators/ForInStatement.js` — which
also contains the generator / name-generator module — and
`src/utils/parse.js`), together with theorems settling the frozen claims
about it.

Conventions used throughout:
* JavaScript objects with identity are represented by numeric ids into an
  explicit heap (an association list).
* JavaScript exceptions become `Except` error arms; `invariant(...)`
  failures become a dedicated `.invariantViolation` arm.
* JavaScript `undefined`-or-value fields become `Option`; truthiness of a
  boolean-or-undefined field is `= some true`, truthiness of a
  value-or-undefined field is `Option.isSome`.
* Identifier strings manipulated by the name generator are `List Char`
  (a JavaScript string is exactly its list of code units for the
  fragments involved here).
-/

namespace PrepackSpec

/-- Model of the `Value` hierarchy as far as the claims need it:
`undef` is `UndefinedValue`, `strVal` a `StringValue`, `objRef` an
`ObjectValue` (by heap id), and `absVal` an `AbstractValue` carrying its
identity, its optional `kind` tag and its `args` vector.  Reference
identity (`===`) of objects and abstract values is id equality. -/
inductive Value : Type where
  | undef : Value
  | strVal : String → Value
  | objRef : Nat → Value
  | absVal : Nat → Option String → List Value → Value

/-- The argument vector of an abstract value. -/
def Value.argsOf : Value → List Value
  | .absVal _ _ args => args
  | _ => []

/-- `v instanceof AbstractValue`. -/
def Value.isAbstract : Value → Bool
  | .absVal _ _ _ => true
  | _ => false

/-- `v === a` where `a` is a known abstract value, by identity:
in the model, identity of abstract values is identity of their ids. -/
def Value.isAbsWithId (i : Nat) : Value → Bool
  | .absVal j _ _ => j = i
  | _ => false

/-- The `kind` tag of an abstract value (`undefined` otherwise). -/
def Value.kindOf : Value → Option String
  | .absVal _ k _ => k
  | _ => none

/-! ## Environment records (`src/environment.js`) -/

/-- A binding record of a declarative environment record
(type `Binding` in `src/environment.js`).  Fields that JavaScript leaves
`undefined` are modelled by their falsy defaults (`none` / `false`). -/
structure Binding where
  value : Option Value := none
  initialized : Bool := false
  mutableB : Bool := false
  deletable : Bool := false
  strictB : Bool := false


/-- The `bindings` map of a `DeclarativeEnvironmentRecord`
(`Object.create(null)` used as a string-keyed map), as an association
list in insertion order. -/
def Bindings : Type := List (String × Binding)

/-- Map lookup, `envRec.bindings[N]`. -/
def Bindings.lookupB (bs : Bindings) (N : String) : Option Binding :=
  match bs with
  | [] => none
  | (k, b) :: rest => if k = N then some b else Bindings.lookupB rest N

/-- Map update, `envRec.bindings[N] = b` (replaces an existing entry,
otherwise appends). -/
def Bindings.setB (bs : Bindings) (N : String) (b : Binding) : Bindings :=
  match bs with
  | [] => [(N, b)]
  | (k, b0) :: rest =>
    if k = N then (N, b) :: rest else (k, b0) :: Bindings.setB rest N b

/-- Map removal, `delete envRec.bindings[N]`. -/
def Bindings.removeB (bs : Bindings) (N : String) : Bindings :=
  match bs with
  | [] => []
  | (k, b0) :: rest =>
    if k = N then rest else (k, b0) :: Bindings.removeB rest N

/-- The error objects the environment operations can throw
(`realm.createErrorThrowCompletion(realm.intrinsics.…)`). -/
inductive ErrKind : Type where
  | referenceError
  | typeError
deriving DecidableEq

/-- How an environment operation can fail: a `ThrowCompletion` carrying a
model error object, or an `invariant(...)` failure (engine crash). -/
inductive EnvErr : Type where
  | thrown : ErrKind → EnvErr
  | invariantViolation : EnvErr
deriving DecidableEq

/-- Values returned by the environment operations: the intrinsic
`empty` completion value or the intrinsic `undefined`. -/
inductive EnvRes : Type where
  | emptyVal
  | undefVal
deriving DecidableEq

/-- `DeclarativeEnvironmentRecord.CreateMutableBinding` (ECMA262
8.1.1.1.2).  `realm.recordModifiedBinding` only logs for rollback and
returns its argument, so it is the identity here. -/
def CreateMutableBinding (bs : Bindings) (N : String) (D : Bool) :
    Except EnvErr (Bindings × EnvRes) :=
  -- 2. Assert: envRec does not already have a binding for N.
  if (bs.lookupB N).isSome then .error .invariantViolation
  else
    -- 3. Create a mutable binding, uninitialized, deletable iff D.
    .ok (bs.setB N { initialized := false, mutableB := true, deletable := D },
         .undefVal)

/-- `DeclarativeEnvironmentRecord.InitializeBinding` (ECMA262 8.1.1.1.4). -/
def InitializeBinding (bs : Bindings) (N : String) (V : Value) :
    Except EnvErr (Bindings × EnvRes) :=
  match bs.lookupB N with
  | none => .error .invariantViolation
  | some binding =>
    -- 2. Assert: envRec must have an uninitialized binding for N.
    if binding.initialized then .error .invariantViolation
    else
      -- 3./4. Set the bound value to V and record initialization.
      .ok (bs.setB N { binding with value := some V, initialized := true },
           .emptyVal)

/-- `DeclarativeEnvironmentRecord.SetMutableBinding` (ECMA262 8.1.1.1.5).
The result pairs the (possibly updated) bindings map with the outcome, so
that a throw visibly leaves the map unchanged. -/
def SetMutableBinding (bs : Bindings) (N : String) (V : Value) (S : Bool) :
    Bindings × Except EnvErr EnvRes :=
  match bs.lookupB N with
  | none =>
    -- 2.a. If S is true, throw a ReferenceError exception.
    if S then (bs, .error (.thrown .referenceError))
    else
      -- 2.b. Perform envRec.CreateMutableBinding(N, true).
      match CreateMutableBinding bs N true with
      | .error e => (bs, .error e)
      | .ok (bs1, _) =>
        -- 2.c. Perform envRec.InitializeBinding(N, V).
        match InitializeBinding bs1 N V with
        | .error e => (bs1, .error e)
        -- 2.d. Return NormalCompletion(empty).
        | .ok (bs2, _) => (bs2, .ok .emptyVal)
  | some binding =>
    -- 3. If the binding is a strict binding, let S be true.
    let S := if binding.strictB then true else S
    -- 4. If the binding has not yet been initialized, throw.
    if !binding.initialized then (bs, .error (.thrown .referenceError))
    else if binding.mutableB then
      -- 5. Mutable binding: change its bound value to V.
      (bs.setB N { binding with value := some V }, .ok .emptyVal)
    else
      -- 6.b. Attempt to change an immutable binding: TypeError if S.
      if S then (bs, .error (.thrown .typeError))
      else (bs, .ok .emptyVal)

/-! ## NameGenerator (generator module in `src/evaluators/ForInStatement.js`) -/

/-- The digit alphabet of the external `base62` package. -/
def base62Digits : List Char :=
  ("0123456789abcdefghijklmnopqrstuvwxyzABCDEFGHIJKLMNOPQRSTUVWXYZ").toList

/-- The character for one base-62 digit. -/
def digitChar62 (n : Nat) : Char := base62Digits.getD n '?'

/-- Digit-extraction loop of `base62.encode`, structurally recursive on a
fuel bound (the loop `while (i > 0) s = chars[i % 62] + s, i = i / 62`
runs at most `n` times). -/
def base62EncodeAux : Nat → Nat → List Char
  | 0, _ => []
  | _ + 1, 0 => []
  | fuel + 1, n + 1 =>
    base62EncodeAux fuel ((n + 1) / 62) ++ [digitChar62 ((n + 1) % 62)]

/-- `base62.encode` of the external `base62` package (`encode(0) = "0"`,
otherwise most-significant-first base-62 digits). -/
def base62Encode (n : Nat) : List Char :=
  if n = 0 then ['0'] else base62EncodeAux n n

/-- State of a `NameGenerator` (its constructor fields; `uidCounter`
starts at 0). -/
structure NameGenSt where
  namePrefix : List Char
  uidCounter : Nat
  debugNames : Bool
  forbiddenNames : List (List Char)
  uniqueSuffix : List Char
deriving DecidableEq

/-- `debugSuffix.replace(/[.,:]/g, "_")`. -/
def sanitizeDebugSuffix (s : List Char) : List Char :=
  s.map (fun c => if c = '.' ∨ c = ',' ∨ c = ':' then '_' else c)

/-- The candidate identifier `NameGenerator.generate` builds from counter
value `c`:
`id = prefix + base62.encode(c)`, then `+= uniqueSuffix` when nonempty,
then, when `debugNames`, `+= "_" + sanitized debugSuffix` (or just `"_"`
when no suffix was passed).  String concatenation is associative, so the
successive `+=` steps are written as one nested append. -/
def mkCandidate (g : NameGenSt) (debugSuffix : Option (List Char))
    (c : Nat) : List Char :=
  g.namePrefix ++ base62Encode c ++
    ((if g.uniqueSuffix.length > 0 then g.uniqueSuffix else []) ++
     (if g.debugNames then
        (match debugSuffix with
         | some d => '_' :: sanitizeDebugSuffix d
         | none => ['_'])
      else []))

/-- The `do … while (forbiddenNames.has(id))` loop of
`NameGenerator.generate`, with explicit fuel (each iteration increments
`uidCounter`); `none` means the fuel ran out before a free name was
found. -/
def generateLoop (g : NameGenSt) (debugSuffix : Option (List Char)) :
    Nat → Option (List Char × NameGenSt)
  | 0 => none
  | fuel + 1 =>
    let id := mkCandidate g debugSuffix g.uidCounter
    let g' := { g with uidCounter := g.uidCounter + 1 }
    if g.forbiddenNames.contains id then generateLoop g' debugSuffix fuel
    else some (id, g')

/-- `NameGenerator.generate(debugSuffix)`.  The fuel
`forbiddenNames.length + 1` is enough iterations for the loop to pass
every forbidden name (candidates are pairwise distinct). -/
def NameGenerator.generate (g : NameGenSt)
    (debugSuffix : Option (List Char)) : Option (List Char × NameGenSt) :=
  generateLoop g debugSuffix (g.forbiddenNames.length + 1)

/-! ## PreludeGenerator (generator module in
`src/evaluators/ForInStatement.js`) -/

/-- The initializer expression of a memoized-reference var declaration:
`t.identifier(key)` for the funky-key hack, `t.thisExpression()` for
`global`, or `t.memberExpression(baseRef, t.identifier(segment))`. -/
inductive InitExpr : Type where
  | funkyIdent : List Char → InitExpr
  | thisE : InitExpr
  | member : List Char → List Char → InitExpr
deriving DecidableEq

/-- A prelude statement `var <name> = <init>;`. -/
structure PStmt where
  name : List Char
  init : InitExpr
deriving DecidableEq

/-- Association-map lookup for a string-keyed `Map`. -/
def lookupRef {α : Type} (m : List (List Char × α)) (key : List Char) :
    Option α :=
  match m with
  | [] => none
  | (k, v) :: rest => if k = key then some v else lookupRef rest key

/-- `Map.set(key, v)` (replaces an existing entry, otherwise appends). -/
def setRef {α : Type} (m : List (List Char × α)) (key : List Char) (v : α) :
    List (List Char × α) :=
  match m with
  | [] => [(key, v)]
  | (k, v0) :: rest =>
    if k = key then (key, v) :: rest else (k, v0) :: setRef rest key v

/-- State of a `PreludeGenerator`.  The `derivedIds` and
`declaredGlobals` fields are not read or written by the operations the
claims are about and are omitted. -/
structure PreludeSt where
  preludeStmts : List PStmt
  memoizedRefs : List (List Char × List Char)
  nameGen : NameGenSt
  usesThis : Bool
deriving DecidableEq

/-- A fresh `new PreludeGenerator(debugNames, uniqueSuffix)`:
empty prelude, empty cache, and a name generator over an empty forbidden
set with prefix `_$`. -/
def freshPreludeSt (debugNames : Bool) (uniqueSuffix : List Char) :
    PreludeSt :=
  { preludeStmts := []
    memoizedRefs := []
    nameGen := { namePrefix := ['_', '$'], uidCounter := 0,
                 debugNames := debugNames, forbiddenNames := [],
                 uniqueSuffix := uniqueSuffix }
    usesThis := false }

/-- `key.lastIndexOf(".")`, as an `Option` (`none` for `-1`). -/
def lastIndexOfDot : List Char → Option Nat
  | [] => none
  | c :: cs =>
    match lastIndexOfDot cs with
    | some i => some (i + 1)
    | none => if c = '.' then some 0 else none

/-- The string `"global"`. -/
def strGlobal : List Char := ['g', 'l', 'o', 'b', 'a', 'l']

/-- Final step of `PreludeGenerator.memoizeReference` once the
initializer is known: mint `ref = t.identifier(nameGenerator.generate(key))`,
push `var ref = init` onto the prelude, and cache `key ↦ ref`
(`none` when the fueled name-generator loop gives out). -/
def memoFinalize (st : PreludeSt) (key : List Char) (init : InitExpr) :
    Option (List Char × PreludeSt) :=
  match NameGenerator.generate st.nameGen (some key) with
  | none => none
  | some (refName, ng') =>
    some (refName,
      { st with nameGen := ng'
                preludeStmts := st.preludeStmts ++ [⟨refName, init⟩]
                memoizedRefs := setRef st.memoizedRefs key refName })

/-- `PreludeGenerator.memoizeReference(key)`, with explicit recursion
fuel (the recursion walks the dot-separated ancestors of `key` and then
`global`, so its depth is bounded by the number of dots plus two). -/
def memoizeReferenceAux : Nat → PreludeSt → List Char →
    Option (List Char × PreludeSt)
  | 0, _, _ => none
  | fuel + 1, st, key =>
    match lookupRef st.memoizedRefs key with
    | some ref => some (ref, st)
    | none =>
      if key.contains '(' || key.contains '[' then
        -- the funky-identifier hack for intrinsic names such as
        -- `RegExp.prototype[Symbol.match]`
        memoFinalize st key (.funkyIdent key)
      else if key = strGlobal then
        memoFinalize { st with usesThis := true } key .thisE
      else
        match lastIndexOfDot key with
        | none =>
          match memoizeReferenceAux fuel st strGlobal with
          | none => none
          | some (gref, st1) => memoFinalize st1 key (.member gref key)
        | some i =>
          match memoizeReferenceAux fuel st (key.take i) with
          | none => none
          | some (bref, st1) =>
            memoFinalize st1 key (.member bref (key.drop (i + 1)))

/-- `PreludeGenerator.memoizeReference(key)` with enough fuel for the
ancestor recursion (`count '.' + 2` levels). -/
def memoizeReference (st : PreludeSt) (key : List Char) :
    Option (List Char × PreludeSt) :=
  memoizeReferenceAux (key.count '.' + 2) st key

/-- The keys a `memoizeReference(key)` call can newly memoize: the key
itself, then (recursively) the ancestor the initializer computation
recurses into (`global` for a dotless key, the dotted head otherwise). -/
def ancestorChain : Nat → List Char → List (List Char)
  | 0, _ => []
  | fuel + 1, key =>
    key ::
      (if key.contains '(' || key.contains '[' then []
       else if key = strGlobal then []
       else
         match lastIndexOfDot key with
         | none => ancestorChain fuel strGlobal
         | some i => ancestorChain fuel (key.take i))

/-! ## Generator (generator module in `src/evaluators/ForInStatement.js`) -/

/-- A property descriptor (`Descriptor`), as far as the generator
operations inspect it.  All attributes may be `undefined` in the source;
`getFn`/`setFn` are the accessor attributes `get`/`set`. -/
structure Descriptor where
  writable : Option Bool := none
  enumerable : Option Bool := none
  configurable : Option Bool := none
  value : Option Value := none
  getFn : Option Value := none
  setFn : Option Value := none

/-- JavaScript truthiness of a `boolean | undefined` attribute. -/
def truthyB (b : Option Bool) : Bool := b.getD false

/-- The template a generator entry's `buildNode` closure was built from.
`buildNode` closures only produce output AST at serialization time; the
claims are about which entry is pushed with which argument vector, so
each closure is represented by the tag of the template the source
installs at the corresponding push site. -/
inductive EntryKind : Type where
  | globalAssignment : String → EntryKind
  | globalDelete : String → EntryKind
  | propertyAssignment : String → EntryKind
  | definePropertyBody : String → Descriptor → EntryKind
  | propertyDelete : String → EntryKind
  | callExpr : EntryKind
  | voidExpr : EntryKind
  | varDeclaration : List Char → EntryKind
  | invariantGuard : Option String → EntryKind
  | forInLoop : String → EntryKind

/-- One `GeneratorEntry`: optional declared abstract value (by id), the
argument vector, the build template, and the purity flag
(`isPure?: boolean`, with `undefined` behaving as `false`). -/
structure GenEntry where
  declared : Option Nat := none
  args : List Value
  kind : EntryKind
  isPure : Bool := false

/-- The mutable state a `Generator` works on: its `body`, plus the parts
of its `preludeGenerator` that `derive` touches (`nameGenerator` and
`derivedIds`), plus the realm's fresh-abstract-value counter standing
for `realm.createAbstract` minting a new `AbstractValue`. -/
structure GenSt where
  body : List GenEntry
  nameGen : NameGenSt
  derivedIds : List (List Char × List Value)
  nextAbsId : Nat

/-- `Generator.emitPropertyAssignment(object, key, value)`: pushes one
entry with arguments `[object, value]` and the member-assignment
template for `key`. -/
def Generator.emitPropertyAssignment (g : GenSt) (object : Value)
    (key : String) (value : Value) : GenSt :=
  { g with body := g.body ++
      [{ args := [object, value], kind := .propertyAssignment key }] }

/-- `Generator.emitDefineProperty(object, key, desc)`: a descriptor that
is enumerable, configurable, writable and has a value is emitted as a
plain property assignment; any other descriptor is emitted as a
define-property entry over `[object, value-or-undefined,
get-or-undefined, set-or-undefined]` built from a copy of `desc`
(descriptors are immutable here, so the `Object.assign({}, desc)` copy
is `desc` itself). -/
def Generator.emitDefineProperty (g : GenSt) (object : Value)
    (key : String) (desc : Descriptor) : GenSt :=
  if truthyB desc.enumerable && truthyB desc.configurable &&
      truthyB desc.writable && desc.value.isSome then
    -- invariant(descValue instanceof Value): `desc.value` is present
    -- under the guard, so `getD` returns it
    Generator.emitPropertyAssignment g object key (desc.value.getD .undef)
  else
    { g with body := g.body ++
        [{ args := [object, desc.value.getD .undef, desc.getFn.getD .undef,
                    desc.setFn.getD .undef],
           kind := .definePropertyBody key desc }] }

/-- `Generator.emitInvariant(args, violationConditionFn, appendLast?)`:
pushes one `if (condition) throw` guard entry; the condition template is
identified by the `typeof` string `derive` passes. -/
def Generator.emitInvariant (g : GenSt) (args : List Value)
    (typeofString : Option String) : GenSt :=
  { g with body := g.body ++
      [{ args := args, kind := .invariantGuard typeofString }] }

/-- The result of `types.getType()` on a `TypesDomain`, as a tag:
a `FunctionValue` subclass, one of the primitive-value classes,
`ObjectValue`, or any other class (for which no `typeof` string is
determined). -/
inductive TypeTag : Type where
  | functionT
  | undefinedT
  | nullT
  | stringT
  | booleanT
  | numberT
  | symbolT
  | objectT
  | otherT
deriving DecidableEq

/-- The `typeof` string `derive` determines from the types domain (the
`if`/`else if` chain), `none` when no branch matches.  The `undefined`
and `null` cases hit `invariant(false)` and are handled separately. -/
def typeofStringOf : TypeTag → Option String
  | .functionT => some "function"
  | .stringT => some "string"
  | .booleanT => some "boolean"
  | .numberT => some "number"
  | .symbolT => some "symbol"
  | .objectT => some "object"
  | _ => none

/-- The optional-argument record of `Generator.derive`. -/
structure DeriveOpts where
  kind : Option String := none
  isPure : Option Bool := none
  skipInvariant : Option Bool := none

/-- Truthiness of `optionalArgs && optionalArgs.skipInvariant`. -/
def skipInvariantB (o : Option DeriveOpts) : Bool :=
  (o.map (fun a => truthyB a.skipInvariant)).getD false

/-- Truthiness of `optionalArgs ? optionalArgs.isPure : undefined`. -/
def isPureB (o : Option DeriveOpts) : Bool :=
  (o.map (fun a => truthyB a.isPure)).getD false

/-- `optionalArgs ? optionalArgs.kind : undefined`. -/
def kindB (o : Option DeriveOpts) : Option String :=
  (o.bind (fun a => a.kind))

/-- How `Generator.derive` can fail: the fueled name-generator loop ran
out, or `invariant(false)` was reached (types domain exactly
`UndefinedValue` or `NullValue`). -/
inductive DeriveErr : Type where
  | nameGenExhausted
  | invariantFailure
deriving DecidableEq

/-- The string `"derived"`. -/
def strDerived : List Char := ['d', 'e', 'r', 'i', 'v', 'e', 'd']

/-- The fresh abstract value `derive` creates
(`realm.createAbstract(types, values, [], id, optionalArgs?.kind)` —
note the empty argument vector). -/
def deriveRes (g : GenSt) (optionalArgs : Option DeriveOpts) : Value :=
  Value.absVal g.nextAbsId (kindB optionalArgs) []

/-- The variable-declaration entry `derive` pushes. -/
def deriveDeclEntry (g : GenSt) (args : List Value)
    (optionalArgs : Option DeriveOpts) (idName : List Char) : GenEntry :=
  { isPure := isPureB optionalArgs, declared := some g.nextAbsId,
    args := args, kind := .varDeclaration idName }

/-- The generator state after `derive` has pushed its declaration entry
and recorded the derived id. -/
def deriveG2 (g : GenSt) (args : List Value)
    (optionalArgs : Option DeriveOpts) (idName : List Char)
    (ng' : NameGenSt) : GenSt :=
  { body := g.body ++ [deriveDeclEntry g args optionalArgs idName]
    nameGen := ng'
    derivedIds := setRef g.derivedIds idName args
    nextAbsId := g.nextAbsId + 1 }

/-- `Generator.derive(types, values, args, buildNode_, optionalArgs?)`:
mint a fresh derived identifier, record it in `derivedIds`, create a
fresh abstract value, push the variable-declaration entry, and then —
unless `skipInvariant` — push a runtime `typeof`-check invariant entry
when the types domain determines a `typeof` string.  (The
`invariant(buildNode_ instanceof Function || args.length === 0)` guard
concerns only the unmodelled buildNode template.) -/
def Generator.derive (g : GenSt) (types : TypeTag) (args : List Value)
    (optionalArgs : Option DeriveOpts) :
    Except DeriveErr (Value × GenSt) :=
  match NameGenerator.generate g.nameGen (some strDerived) with
  | none => .error .nameGenExhausted
  | some (idName, ng') =>
    if skipInvariantB optionalArgs then
      .ok (deriveRes g optionalArgs, deriveG2 g args optionalArgs idName ng')
    else
      match types with
      | .undefinedT => .error .invariantFailure
      | .nullT => .error .invariantFailure
      | t =>
        match typeofStringOf t with
        | some ts =>
          .ok (deriveRes g optionalArgs,
            Generator.emitInvariant (deriveG2 g args optionalArgs idName ng')
              [deriveRes g optionalArgs, deriveRes g optionalArgs] (some ts))
        | none =>
          .ok (deriveRes g optionalArgs,
            deriveG2 g args optionalArgs idName ng')

/-- The calls `Generator.serialize(context)` makes on the serialization
context, in order. -/
inductive SEvent : Type where
  | serializedArg : Value → SEvent
  | emitted : GenEntry → SEvent
  | declared : Nat → SEvent

/-- Projection of a trace event to the emitted entry, when it is an
emission. -/
def SEvent.emittedOf : SEvent → Option GenEntry
  | .emitted e => some e
  | _ => none

/-- The omission condition of `Generator.serialize`: an entry is skipped
exactly when `entry.isPure && entry.declared && context.canOmit(entry.declared)`
(the negation of the emission condition in the source). -/
def entryOmitted (canOmit : Nat → Bool) (e : GenEntry) : Bool :=
  e.isPure &&
    (match e.declared with
     | some d => canOmit d
     | none => false)

/-- `Generator.serialize(context)` over a body, as the trace of context
calls it performs: for every non-omitted entry, serialize each argument
in order, emit the built statement, and declare the declared abstract
value when there is one. -/
def Generator.serialize (body : List GenEntry) (canOmit : Nat → Bool) :
    List SEvent :=
  match body with
  | [] => []
  | e :: rest =>
    (if entryOmitted canOmit e then []
     else
       (e.args.map SEvent.serializedArg) ++ [SEvent.emitted e] ++
         (match e.declared with
          | some d => [SEvent.declared d]
          | none => [])) ++ Generator.serialize rest canOmit

/-! ## parse (`src/utils/parse.js`) -/

/-- `hay.indexOf(needle) >= 0`: `needle` occurs contiguously in `hay`. -/
def containsSubstr : List Char → List Char → Bool
  | [], needle => needle.isEmpty
  | c :: rest, needle =>
    needle.isPrefixOf (c :: rest) || containsSubstr rest needle

/-- The fixed list of babylon messages that should have produced a
ReferenceError rather than a SyntaxError. -/
def referenceErrorMessages : List (List Char) :=
  [("Invalid left-hand side in postfix operation").toList,
   ("Invalid left-hand side in prefix operation").toList,
   ("Invalid left-hand side in assignment expression").toList]

/-- What the external babylon `parse(code, opts)` call did: returned an
AST (opaque id), threw a `SyntaxError` carrying a message and a location
(opaque id), or threw any other exception (opaque id). -/
inductive BabylonOutcome : Type where
  | parsed : Nat → BabylonOutcome
  | synExn : List Char → Nat → BabylonOutcome
  | otherExn : Nat → BabylonOutcome
deriving DecidableEq

/-- Which intrinsic error constructor the module's `parse` builds the
throw-completion value with. -/
inductive ErrObjKind : Type where
  | refErrObj
  | synErrObj
deriving DecidableEq

/-- Result of the module's default export `parse`: the traversed AST, a
`ThrowCompletion` carrying a constructed error object (which keeps the
original message and the error location), or the original exception
rethrown unchanged. -/
inductive ParseResult : Type where
  | ast : Nat → ParseResult
  | throwCompletion : ErrObjKind → List Char → Nat → ParseResult
  | rethrown : Nat → ParseResult
deriving DecidableEq

/-- `parse(realm, code, filename, sourceType, startLine)` as a function
of what the underlying babylon call did.  A `SyntaxError` whose message
contains one of the fixed invalid-left-hand-side substrings becomes a
ReferenceError throw completion, any other `SyntaxError` a SyntaxError
throw completion, and every other exception is rethrown. -/
def parse (outcome : BabylonOutcome) : ParseResult :=
  match outcome with
  | .parsed a => .ast a
  | .synExn msg loc =>
    if referenceErrorMessages.any (fun m => containsSubstr msg m) then
      .throwCompletion .refErrObj msg loc
    else
      .throwCompletion .synErrObj msg loc
  | .otherExn e => .rethrown e

/-! ## ForInStatement evaluator (`src/evaluators/ForInStatement.js`) -/

/-- An object's state in the heap: its own enumerable string-keyed data
properties in insertion order, and the `partial` / `simple` bits. -/
structure ObjData where
  props : List (String × Value) := []
  isPartialObj : Bool := false
  isSimpleObj : Bool := false

/-- The heap: object id → object state. -/
def Heap : Type := List (Nat × ObjData)

/-- Heap lookup by object id. -/
def Heap.getObj (h : Heap) (i : Nat) : Option ObjData :=
  match h with
  | [] => none
  | (j, o) :: rest => if j = i then some o else Heap.getObj rest i

/-- Heap update by object id (replaces an existing object, otherwise
appends). -/
def Heap.setObj (h : Heap) (i : Nat) (o : ObjData) : Heap :=
  match h with
  | [] => [(i, o)]
  | (j, o0) :: rest =>
    if j = i then (i, o) :: rest else (j, o0) :: Heap.setObj rest i o

/-- Apply a function to one object's state (identity when absent). -/
def Heap.mapObj (h : Heap) (i : Nat) (f : ObjData → ObjData) : Heap :=
  match h.getObj i with
  | none => h
  | some o => h.setObj i (f o)

/-- `o.makeSimple()`. -/
def Heap.makeSimple (h : Heap) (i : Nat) : Heap :=
  h.mapObj i (fun o => { o with isSimpleObj := true })

/-- `o.makePartial()`. -/
def Heap.makePartial (h : Heap) (i : Nat) : Heap :=
  h.mapObj i (fun o => { o with isPartialObj := true })

/-- `o.makeNotPartial()`. -/
def Heap.makeNotPartial (h : Heap) (i : Nat) : Heap :=
  h.mapObj i (fun o => { o with isPartialObj := false })

/-- Property-list write: assignment to an existing key keeps its
position, a new key is appended (JavaScript own-property order). -/
def setPropL (props : List (String × Value)) (k : String) (v : Value) :
    List (String × Value) :=
  match props with
  | [] => [(k, v)]
  | (k0, v0) :: rest =>
    if k0 = k then (k, v) :: rest else (k0, v0) :: setPropL rest k v

/-- Generic lookup in a string-keyed property list. -/
def lookupProp (props : List (String × Value)) (k : String) :
    Option Value :=
  match props with
  | [] => none
  | (k0, v0) :: rest => if k0 = k then some v0 else lookupProp rest k

/-- `targetObject.$Set(key, val, targetObject)` with a concrete string
key on a simple object: a data-property write. -/
def Heap.setProp (h : Heap) (i : Nat) (k : String) (v : Value) : Heap :=
  h.mapObj i (fun o => { o with props := setPropL o.props k v })

/-- `EnumerableOwnProperties(realm, obj, "key+value")` on a simple
non-partial object: its own enumerable key/value pairs in order (the
source builds `[k, v]` array pairs and immediately reads them back). -/
def Heap.enumerableOwnProps (h : Heap) (i : Nat) :
    List (String × Value) :=
  ((h.getObj i).map (fun o => o.props)).getD []

/-- One property's value read through the heap. -/
def Heap.getProp (h : Heap) (i : Nat) (k : String) : Option Value :=
  (h.getObj i).bind (fun o => lookupProp o.props k)

/-- The result of `ForInOfHeadEvaluation` as far as the for-in
evaluator inspects it: a concrete `ObjectValue` (by id), or an
`AbstractValue` carrying its id, its `partial` and `simple` bits, and —
when its values domain is finite with exactly one element — that lone
concrete object. -/
inductive KeyResult : Type where
  | concrete : Nat → KeyResult
  | abstractR : Nat → Bool → Bool → Option Nat → KeyResult

/-- `keyResult.isPartialObject()`. -/
def KeyResult.isPartialObjB (kr : KeyResult) (h : Heap) : Bool :=
  match kr with
  | .concrete i => ((h.getObj i).map (fun o => o.isPartialObj)).getD false
  | .abstractR _ p _ _ => p

/-- `keyResult.isSimpleObject()`. -/
def KeyResult.isSimpleObjB (kr : KeyResult) (h : Heap) : Bool :=
  match kr with
  | .concrete i => ((h.getObj i).map (fun o => o.isSimpleObj)).getD false
  | .abstractR _ _ s _ => s

/-- `keyResult instanceof AbstractValue`. -/
def KeyResult.isAbstractB : KeyResult → Bool
  | .concrete _ => false
  | .abstractR _ _ _ _ => true

/-- The unwrapping `let o = ob; if (ob instanceof AbstractObjectValue &&
!ob.values.isTop() && ob.values.getElements().size === 1) o = the lone
element`, as the `Value` that ends up in the generator entry's argument
vector. -/
def unwrapOb : KeyResult → Value
  | .concrete i => .objRef i
  | .abstractR _ _ _ (some e) => .objRef e
  | .abstractR aid _ _ none => .absVal aid none []

/-- The `left` of a for-in statement: a `var` declaration (with its
bound names), a lexical (`let`/`const`) declaration, or a
left-hand-side expression. -/
inductive LeftKind : Type where
  | varDecl : List String → LeftKind
  | lexicalDecl : LeftKind
  | lhsExpr : LeftKind

/-- Diagnostic severities (`errors.js`). -/
inductive Severity : Type where
  | fatalError
  | recoverableError
  | warning
  | information
deriving DecidableEq

/-- A `CompilerDiagnostic` (the location is not tracked). -/
structure Diagnostic where
  message : String
  code : String
  severity : Severity
deriving DecidableEq

/-- The diagnostic built by `reportError`. -/
def pp0013 : Diagnostic :=
  { message := "for in loops over unknown objects are not yet supported",
    code := "PP0013", severity := .fatalError }

/-- One entry of the `modifiedProperties` map that
`realm.evaluateNodeForEffects` returns: the property binding's object,
whether the binding is that object's `unknownProperty` binding, and the
written descriptor (`undefined` possible per its type). -/
structure PropEntry where
  objectId : Nat
  isUnknownProp : Bool
  desc : Option Descriptor

/-- The result of `realm.evaluateNodeForEffects(body, strictCode,
blockEnv)` as far as `emitResidualLoopIfSafe` inspects it.  The
speculative-evaluation machinery lives in `realm.js`, outside this
repository slice, so its outcome is an input here; values inside it may
refer to the fresh abstract string by the id the evaluator mints for it
(`InterpSt.nextAbsId` on entry). -/
structure EffectsResult where
  complIsValue : Bool
  genIsEmpty : Bool
  bindingsSize : Nat
  properties : List PropEntry
  createdObjSize : Nat

/-- The interpreter state the for-in evaluator reads and writes: the
heap, the realm generator's body, and the fresh-abstract-value
counter. -/
structure InterpSt where
  heap : Heap
  genBody : List GenEntry
  nextAbsId : Nat

/-- Outcome of the for-in evaluator.  `fatal d` stands for
`realm.handleError(d)` followed by `throw new FatalError()`;
`invariantFail` for an `invariant(...)` crash; `delegateBody kind i`
for returning `ForInOfBodyEvaluation(..., keyResult = object i, kind,
...)`, which lives outside this file. -/
inductive ForInOutcome : Type where
  | ok : Value → InterpSt → ForInOutcome
  | fatal : Diagnostic → ForInOutcome
  | invariantFail : ForInOutcome
  | delegateBody : String → Nat → ForInOutcome

/-- The `while (mem instanceof AbstractValue)` walk of
`emitResidualLoopIfSafe`: find the object of the sentinel member
expression `sourceObject[absStr]`, skipping over `check for known
property` tests on `absStr`; `none` when the loop exits without finding
it (including when `mem` stops being an abstract value). -/
def findSourceObject (absId : Nat) (mem : Value) : Option Nat :=
  match mem with
  | .absVal _ k args =>
    if k = some "sentinel member expression" &&
        (match args.get? 0 with
         | some (.objRef _) => true
         | _ => false) &&
        (match args.get? 1 with
         | some v => v.isAbsWithId absId
         | none => false) then
      match args.get? 0 with
      | some (.objRef o) => some o
      | _ => none
    else
      match hcond : args.get? 0 with
      | some (.absVal _ ck cargs) =>
        if ck = some "check for known property" &&
            (match cargs.get? 0 with
             | some v => v.isAbsWithId absId
             | none => false) then
          match hnext : args.get? 2 with
          | some m2 => findSourceObject absId m2
          | none => none
        else none
      | _ => none
  | _ => none
termination_by sizeOf mem
decreasing_by
  simp_wf
  have hm : m2 ∈ args := List.get?_mem hnext
  have h2 := List.sizeOf_lt_of_mem hm
  omega

/-- Outcome of the `properties.forEach` body-shape walk: an
`invariant(...)` crash (`desc === undefined`, or a written abstract
value whose first argument is not a `template for property name
condition`), or the target/source objects found so far. -/
inductive MatchOutcome : Type where
  | crash
  | found : Option Nat → Option Nat → MatchOutcome

/-- The `properties.forEach` body of `emitResidualLoopIfSafe` on the
single modified property binding: when the binding is its object's
`unknownProperty` binding, the target is that object and the source is
found by walking the written value down to `sourceObject[absStr]`. -/
def matchPropEntry (absId : Nat) (p : PropEntry) : MatchOutcome :=
  if p.isUnknownProp then
    match p.desc with
    | none => .crash
    | some desc =>
      match desc.value with
      | some (.absVal _ _ args) =>
        match args.get? 0 with
        | some (.absVal _ ck _) =>
          if ck = some "template for property name condition" then
            match args.get? 2 with
            | some .undef =>
              .found (some p.objectId)
                (match args.get? 1 with
                 | some mem => findSourceObject absId mem
                 | none => none)
            | _ => .found (some p.objectId) none
          else .crash
        | _ => .crash
      | _ => .found (some p.objectId) none
  else .found none none

/-- The acceptance guard on the speculative body evaluation:
`compl instanceof Value && gen.empty() && bindings.size === 0 &&
properties.size === 1`. -/
def effAccepted (eff : EffectsResult) : Bool :=
  eff.complIsValue && eff.genIsEmpty && (eff.bindingsSize == 0) &&
    (eff.properties.length == 1)

/-- The residual for-in loop entry pushed onto the realm generator
(arguments `[o, targetObject, sourceObject, targetObject,
sourceObject]`, duplicated to keep refcounts above one). -/
def forInLoopEntry (oVal : Value) (tgt src : Nat) (boundName : String) :
    GenEntry :=
  { args := [oVal, .objRef tgt, .objRef src, .objRef tgt, .objRef src],
    kind := .forInLoop boundName }

/-- `emitResidualLoopIfSafe(ast, strictCode, env, realm, lh, obexpr, ob,
body)`.  The fresh abstract string `absStr` gets id `st.nextAbsId`; the
new declarative environment and the binding of the loop variable to
`absStr` live only in the discarded block environment and are not part
of the observable state. -/
def emitResidualLoopIfSafe (boundNames : List String) (ob : KeyResult)
    (eff : EffectsResult) (st : InterpSt) : ForInOutcome :=
  -- invariant(ob.isSimpleObject())
  if ob.isSimpleObjB st.heap = false then .invariantFail
  -- invariant(boundName === undefined) inside the BoundNames loop
  else if boundNames.length ≥ 2 then .invariantFail
  else
    let boundName := (boundNames.head?).getD ""
    if effAccepted eff then
      -- invariant(createdObj.size === 0)
      if eff.createdObjSize ≠ 0 then .invariantFail
      else
        match eff.properties with
        | [p] =>
          match matchPropEntry st.nextAbsId p with
          | .crash => .invariantFail
          | .found tgtOpt srcOpt =>
            match tgtOpt, srcOpt with
            | some tgt, some src =>
              let oVal := unwrapOb ob
              -- make the target simple and partial
              let h1 := (st.heap.makeSimple tgt).makePartial tgt
              if (match oVal with
                  | .objRef oid => oid == src
                  | _ => false) then
                -- sourceObject === o: copy the known enumerable
                -- properties of the source onto the target
                -- invariant(sourceObject.isPartialObject())
                if ((h1.getObj src).map
                    (fun o => o.isPartialObj)).getD false = false then
                  .invariantFail
                else
                  let h2 := h1.makeNotPartial src
                  let pairs := h2.enumerableOwnProps src
                  let h3 := h2.makePartial src
                  let h4 := pairs.foldl
                    (fun hh kv => hh.setProp tgt kv.1 kv.2) h3
                  .ok .undef
                    { heap := h4,
                      genBody := st.genBody ++
                        [forInLoopEntry oVal tgt src boundName],
                      nextAbsId := st.nextAbsId + 1 }
              else
                .ok .undef
                  { heap := h1,
                    genBody := st.genBody ++
                      [forInLoopEntry oVal tgt src boundName],
                    nextAbsId := st.nextAbsId + 1 }
            | _, _ => .fatal pp0013
        | _ => .fatal pp0013
    else .fatal pp0013

/-- The for-in evaluator (default export of
`src/evaluators/ForInStatement.js`), as a function of the already
evaluated head (`ForInOfHeadEvaluation` lives in `ForOfStatement.js`)
and of the speculative body evaluation's outcome (used only on the
residual path). -/
def forInEvaluate (left : LeftKind) (keyResult : KeyResult)
    (eff : EffectsResult) (st : InterpSt) : ForInOutcome :=
  match left with
  | .varDecl boundNames =>
    if keyResult.isPartialObjB st.heap && keyResult.isSimpleObjB st.heap then
      emitResidualLoopIfSafe boundNames keyResult eff st
    else
      match keyResult with
      -- reportErrorAndThrowIfNotConcrete
      | .abstractR _ _ _ _ => .fatal pp0013
      | .concrete i => .delegateBody "varBinding" i
  | .lexicalDecl =>
    match keyResult with
    | .abstractR _ _ _ _ => .fatal pp0013
    | .concrete i => .delegateBody "lexicalBinding" i
  | .lhsExpr =>
    match keyResult with
    | .abstractR _ _ _ _ => .fatal pp0013
    | .concrete i => .delegateBody "assignment" i

/-! ### C1: strict-mode `SetMutableBinding` on a missing binding -/

/-- C1.  For a declarative environment record with no binding for `N`,
`SetMutableBinding(N, V, S)` with `S = true` throws a ReferenceError
completion and leaves the bindings unchanged; with `S = false` it creates
a mutable, deletable binding for `N` initialized to `V` (leaving all
other bindings untouched) and returns the empty completion. -/
theorem setMutableBinding_missing_binding
    (bs : Bindings) (N : String) (V : Value)
    (hmiss : bs.lookupB N = none) :
    SetMutableBinding bs N V true = (bs, .error (.thrown .referenceError)) ∧
    ∃ bs' : Bindings,
      SetMutableBinding bs N V false = (bs', .ok .emptyVal) ∧
      bs'.lookupB N = some { value := some V, initialized := true,
                             mutableB := true, deletable := true,
                             strictB := false } ∧
      ∀ M : String, M ≠ N → bs'.lookupB M = bs.lookupB M := by
  have hset_lookup : ∀ (l : Bindings) (b : Binding),
      (l.setB N b).lookupB N = some b := by
    intro l b
    induction l with
    | nil => simp [Bindings.setB, Bindings.lookupB]
    | cons kb rest ih =>
      by_cases hk : kb.1 = N
      · simp [Bindings.setB, Bindings.lookupB, hk]
      · cases kb with
        | mk k b0 =>
          simp only at hk
          simp [Bindings.setB, Bindings.lookupB, hk, ih]
  have hset_lookup_ne : ∀ (l : Bindings) (b : Binding) (M : String), M ≠ N →
      (l.setB N b).lookupB M = l.lookupB M := by
    intro l b M hMN
    induction l with
    | nil => simp [Bindings.setB, Bindings.lookupB, Ne.symm hMN]
    | cons kb rest ih =>
      cases kb with
      | mk k b0 =>
        by_cases hk : k = N
        · subst hk
          simp [Bindings.setB, Bindings.lookupB, Ne.symm hMN]
        · simp [Bindings.setB, Bindings.lookupB, hk, ih]
  have hset_set : ∀ (l : Bindings) (b1 b2 : Binding),
      (l.setB N b1).setB N b2 = l.setB N b2 := by
    intro l b1 b2
    induction l with
    | nil => simp [Bindings.setB]
    | cons kb rest ih =>
      cases kb with
      | mk k b0 =>
        by_cases hk : k = N
        · simp [Bindings.setB, hk]
        · simp [Bindings.setB, hk, ih]
  constructor
  · simp [SetMutableBinding, hmiss]
  · refine ⟨bs.setB N { value := some V, initialized := true, mutableB := true, deletable := true, strictB := false }, ?_, ?_, ?_⟩
    · simp only [SetMutableBinding, hmiss]
      simp only [CreateMutableBinding, hmiss, Option.isSome_none,
        Bool.false_eq_true, if_false]
      simp [InitializeBinding, hset_lookup, hset_set]
    · exact hset_lookup _ _
    · intro M hMN
      exact hset_lookup_ne _ _ _ hMN

/-- Witness for C1 at a concrete record and name. -/
theorem setMutableBinding_missing_binding_witness :
    Bindings.lookupB [("x", { initialized := true, mutableB := true })]
        "y" = none ∧
    (SetMutableBinding [("x", { initialized := true, mutableB := true })]
        "y" (Value.strVal "v") true =
      ([("x", { initialized := true, mutableB := true })],
        .error (.thrown .referenceError))) := by
  have h : Bindings.lookupB
      [("x", { initialized := true, mutableB := true })] "y" = none := by
    simp [Bindings.lookupB]
  exact ⟨h, (setMutableBinding_missing_binding _ "y" (Value.strVal "v") h).1⟩

/-! ### Supporting lemmas about base-62 identifier encoding -/

/-- Distinct base-62 digit values map to distinct characters. -/
theorem digitChar62_inj :
    ∀ i < 62, ∀ j < 62, digitChar62 i = digitChar62 j → i = j := by decide

/-- `map digitChar62` is injective on lists of base-62 digit values. -/
theorem map_digitChar62_inj :
    ∀ (l1 l2 : List Nat), (∀ x ∈ l1, x < 62) → (∀ x ∈ l2, x < 62) →
      l1.map digitChar62 = l2.map digitChar62 → l1 = l2 := by
  intro l1
  induction l1 with
  | nil => intro l2 _ _ h; cases l2 <;> simp_all
  | cons a l ih =>
    intro l2 h1 h2 h
    cases l2 with
    | nil => simp_all
    | cons b l2' =>
      simp only [List.map_cons, List.cons.injEq] at h
      have ha : a < 62 := h1 a (by simp)
      have hb : b < 62 := h2 b (by simp)
      have hab := digitChar62_inj a ha b hb h.1
      have htl := ih l2' (fun x hx => h1 x (by simp [hx]))
        (fun x hx => h2 x (by simp [hx])) h.2
      simp [hab, htl]

/-- The fueled digit loop agrees with the mathematical base-62 digit
expansion once the fuel dominates the argument. -/
theorem base62EncodeAux_eq_digits :
    ∀ (fuel n : Nat), n ≤ fuel →
      base62EncodeAux fuel n = ((Nat.digits 62 n).map digitChar62).reverse := by
  intro fuel
  induction fuel with
  | zero =>
    intro n hn
    interval_cases n
    simp [base62EncodeAux]
  | succ f ih =>
    intro n hn
    cases n with
    | zero => simp [base62EncodeAux]
    | succ m =>
      have hdiv : (m + 1) / 62 ≤ f := by
        have h1 : (m + 1) / 62 < m + 1 :=
          Nat.div_lt_self (Nat.succ_pos m) (by norm_num)
        omega
      rw [base62EncodeAux, ih _ hdiv,
        Nat.digits_def' (b := 62) (by norm_num) (Nat.succ_pos m)]
      simp

/-- Every digit character produced from an actual digit list stays in the
base-62 alphabet range, so `base62Encode` is injective. -/
theorem base62Encode_inj {m n : Nat} (h : base62Encode m = base62Encode n) :
    m = n := by
  have hb : (1 : Nat) < 62 := by norm_num
  have key : ∀ k : Nat, k ≠ 0 →
      base62Encode k = ((Nat.digits 62 k).map digitChar62).reverse := by
    intro k hk
    unfold base62Encode
    rw [if_neg hk]
    exact base62EncodeAux_eq_digits k k le_rfl
  by_cases hm : m = 0 <;> by_cases hn : n = 0
  · omega
  · exfalso
    rw [key n hn] at h
    have h0 : base62Encode m = ['0'] := by simp [base62Encode, hm]
    rw [h0] at h
    have hmap : (Nat.digits 62 n).map digitChar62 = ['0'] := by
      have := congrArg List.reverse h
      simpa using this.symm
    have hdig : Nat.digits 62 n = [0] := by
      apply map_digitChar62_inj _ [0]
      · exact fun x hx => Nat.digits_lt_base hb hx
      · intro x hx; simp at hx; omega
      · rw [hmap]; rfl
    have := Nat.ofDigits_digits 62 n
    rw [hdig] at this
    simp [Nat.ofDigits] at this
    exact hn this.symm
  · exfalso
    rw [key m hm] at h
    have h0 : base62Encode n = ['0'] := by simp [base62Encode, hn]
    rw [h0] at h
    have hmap : (Nat.digits 62 m).map digitChar62 = ['0'] := by
      have := congrArg List.reverse h
      simpa using this
    have hdig : Nat.digits 62 m = [0] := by
      apply map_digitChar62_inj _ [0]
      · exact fun x hx => Nat.digits_lt_base hb hx
      · intro x hx; simp at hx; omega
      · rw [hmap]; rfl
    have := Nat.ofDigits_digits 62 m
    rw [hdig] at this
    simp [Nat.ofDigits] at this
    exact hm this.symm
  · rw [key m hm, key n hn] at h
    have hmap : (Nat.digits 62 m).map digitChar62 =
        (Nat.digits 62 n).map digitChar62 := by
      have := congrArg List.reverse h
      simpa using this
    have hdig : Nat.digits 62 m = Nat.digits 62 n :=
      map_digitChar62_inj _ _ (fun x hx => Nat.digits_lt_base hb hx)
        (fun x hx => Nat.digits_lt_base hb hx) hmap
    exact Nat.digits.injective 62 hdig

/-- For one generator configuration and one debug suffix, distinct
counter values give distinct candidate identifiers. -/
theorem mkCandidate_inj (g : NameGenSt) (d : Option (List Char))
    {c1 c2 : Nat} (h : mkCandidate g d c1 = mkCandidate g d c2) : c1 = c2 := by
  unfold mkCandidate at h
  have h1 := List.append_cancel_right h
  have h2 := List.append_cancel_left h1
  exact base62Encode_inj h2

/-- Unfolding invariant of the `generate` loop: a successful run leaves
the configuration fields untouched, strictly increases `uidCounter`,
returns a non-forbidden name, and that name is the candidate for some
counter value passed during the run. -/
theorem generateLoop_spec (d : Option (List Char)) :
    ∀ (fuel : Nat) (g : NameGenSt) (id : List Char) (g' : NameGenSt),
      generateLoop g d fuel = some (id, g') →
      g'.namePrefix = g.namePrefix ∧ g'.debugNames = g.debugNames ∧
      g'.forbiddenNames = g.forbiddenNames ∧
      g'.uniqueSuffix = g.uniqueSuffix ∧
      g.uidCounter < g'.uidCounter ∧
      g.forbiddenNames.contains id = false ∧
      ∃ c, g.uidCounter ≤ c ∧ c < g'.uidCounter ∧ id = mkCandidate g d c := by
  intro fuel
  induction fuel with
  | zero => intro g id g' h; simp [generateLoop] at h
  | succ f ih =>
    intro g id g' h
    rw [generateLoop] at h
    by_cases hforb :
        g.forbiddenNames.contains (mkCandidate g d g.uidCounter) = true
    · rw [if_pos hforb] at h
      obtain ⟨hp, hd, hf, hs, hc, hnotf, c, hc1, hc2, hid⟩ := ih _ _ _ h
      have hc1' : g.uidCounter + 1 ≤ c := hc1
      have hc' : g.uidCounter + 1 < g'.uidCounter := hc
      exact ⟨hp, hd, hf, hs, by omega, hnotf, c, by omega, hc2, hid⟩
    · rw [if_neg hforb] at h
      simp only [Option.some.injEq, Prod.mk.injEq] at h
      obtain ⟨hid, hg'⟩ := h
      subst hg'
      refine ⟨rfl, rfl, rfl, rfl, by simp, ?_,
        g.uidCounter, le_rfl, by simp, hid.symm⟩
      rw [← hid]
      simpa using hforb

/-! ### C8: `NameGenerator.generate` freshness and monotonicity -/

/-- C8.  `generate` never returns a forbidden identifier, `uidCounter`
strictly increases across calls, two successive calls on the same
generator (same configuration, same debug suffix) return distinct
identifiers, and each identifier begins with the generator's prefix. -/
theorem nameGenerator_generate_fresh_monotone_distinct
    (g g1 g2 : NameGenSt) (d : Option (List Char)) (id1 id2 : List Char)
    (h1 : NameGenerator.generate g d = some (id1, g1))
    (h2 : NameGenerator.generate g1 d = some (id2, g2)) :
    g.forbiddenNames.contains id1 = false ∧
    g1.forbiddenNames.contains id2 = false ∧
    g.uidCounter < g1.uidCounter ∧ g1.uidCounter < g2.uidCounter ∧
    id1 ≠ id2 ∧
    (∃ r, id1 = g.namePrefix ++ r) ∧ (∃ r, id2 = g.namePrefix ++ r) := by
  obtain ⟨hp1, hd1, hf1, hs1, hc1, hnf1, c1, hc1a, hc1b, hid1⟩ :=
    generateLoop_spec d _ _ _ _ h1
  obtain ⟨hp2, hd2, hf2, hs2, hc2, hnf2, c2, hc2a, hc2b, hid2⟩ :=
    generateLoop_spec d _ _ _ _ h2
  have hgcfg : mkCandidate g1 d c2 = mkCandidate g d c2 := by
    unfold mkCandidate
    rw [hp1, hs1, hd1]
  have hpref : ∀ c : Nat, ∃ r, mkCandidate g d c = g.namePrefix ++ r := by
    intro c
    refine ⟨base62Encode c ++
      ((if g.uniqueSuffix.length > 0 then g.uniqueSuffix else []) ++
       (if g.debugNames then
          (match d with
           | some s => '_' :: sanitizeDebugSuffix s
           | none => ['_'])
        else [])), ?_⟩
    simp [mkCandidate, List.append_assoc]
  refine ⟨hnf1, hnf2, hc1, hc2, ?_, ?_, ?_⟩
  · intro heq
    have : mkCandidate g d c1 = mkCandidate g d c2 := by
      rw [← hid1, heq, hid2, hgcfg]
    have := mkCandidate_inj g d this
    omega
  · obtain ⟨r, hr⟩ := hpref c1
    exact ⟨r, by rw [hid1, hr]⟩
  · obtain ⟨r, hr⟩ := hpref c2
    exact ⟨r, by rw [hid2, hgcfg, hr]⟩

/-- Witness for C8: two successive calls on a fresh generator with
prefix `_$` and a forbidden set containing the first candidate `_$0`. -/
theorem nameGenerator_generate_witness :
    NameGenerator.generate ⟨['_', '$'], 0, false, [['_', '$', '0']], []⟩
        none = some (['_', '$', '1'],
          ⟨['_', '$'], 2, false, [['_', '$', '0']], []⟩) ∧
    (([['_', '$', '0']] : List (List Char)).contains ['_', '$', '1'] =
        false ∧
      ([['_', '$', '0']] : List (List Char)).contains ['_', '$', '2'] =
        false ∧
      (0 : Nat) < 2 ∧ (2 : Nat) < 3 ∧
      (['_', '$', '1'] : List Char) ≠ ['_', '$', '2'] ∧
      (∃ r, (['_', '$', '1'] : List Char) = ['_', '$'] ++ r) ∧
      (∃ r, (['_', '$', '2'] : List Char) = ['_', '$'] ++ r)) := by
  refine ⟨by decide, ?_⟩
  exact nameGenerator_generate_fresh_monotone_distinct
    ⟨['_', '$'], 0, false, [['_', '$', '0']], []⟩
    ⟨['_', '$'], 2, false, [['_', '$', '0']], []⟩
    ⟨['_', '$'], 3, false, [['_', '$', '0']], []⟩
    none ['_', '$', '1'] ['_', '$', '2'] (by decide) (by decide)

/-! ### Supporting lemmas for `memoizeReference` -/

/-- `Map.set` then `Map.get` on the same key. -/
theorem lookupRef_setRef_self {α : Type} (m : List (List Char × α))
    (k : List Char) (v : α) : lookupRef (setRef m k v) k = some v := by
  induction m with
  | nil => simp [setRef, lookupRef]
  | cons kv rest ih =>
    cases kv with
    | mk k0 v0 =>
      by_cases hk : k0 = k
      · simp [setRef, lookupRef, hk]
      · simp [setRef, lookupRef, hk, ih]

/-- `Map.set` leaves other keys alone. -/
theorem lookupRef_setRef_ne {α : Type} (m : List (List Char × α))
    (k : List Char) (v : α) (k' : List Char) (h : k' ≠ k) :
    lookupRef (setRef m k v) k' = lookupRef m k' := by
  induction m with
  | nil => simp [setRef, lookupRef, Ne.symm h]
  | cons kv rest ih =>
    cases kv with
    | mk k0 v0 =>
      by_cases hk : k0 = k
      · subst hk
        simp [setRef, lookupRef, Ne.symm h]
      · simp [setRef, lookupRef, hk, ih]

/-- Setting a key that is not in the map grows it by one entry. -/
theorem setRef_length_new {α : Type} (m : List (List Char × α))
    (k : List Char) (v : α) (h : lookupRef m k = none) :
    (setRef m k v).length = m.length + 1 := by
  induction m with
  | nil => simp [setRef]
  | cons kv rest ih =>
    cases kv with
    | mk k0 v0 =>
      by_cases hk : k0 = k
      · simp [lookupRef, hk] at h
      · simp only [lookupRef, hk, if_false] at h
        simp [setRef, hk, ih h]

/-- A last-dot index points inside the string. -/
theorem lastIndexOfDot_lt_length :
    ∀ (l : List Char) (i : Nat), lastIndexOfDot l = some i → i < l.length := by
  intro l
  induction l with
  | nil => intro i h; simp [lastIndexOfDot] at h
  | cons c cs ih =>
    intro i h
    rw [lastIndexOfDot] at h
    cases hcs : lastIndexOfDot cs with
    | some j =>
      rw [hcs] at h
      simp only [Option.some.injEq] at h
      have := ih j hcs
      simp only [List.length_cons]
      omega
    | none =>
      rw [hcs] at h
      by_cases hc : c = '.'
      · rw [if_pos hc] at h
        simp only [Option.some.injEq] at h
        simp only [List.length_cons]
        omega
      · rw [if_neg hc] at h
        cases h

/-- The ancestor chain of `global` is just `global`. -/
theorem ancestorChain_global (fuel : Nat) :
    ancestorChain (fuel + 1) strGlobal = [strGlobal] := by
  have h1 : (strGlobal.contains '(' || strGlobal.contains '[') = false := by
    decide
  simp [ancestorChain, h1]

/-- Every element of an ancestor chain is no longer than the key, or is
`global`. -/
theorem ancestorChain_len :
    ∀ (fuel : Nat) (k e : List Char),
      e ∈ ancestorChain fuel k → e.length ≤ k.length ∨ e = strGlobal := by
  intro fuel
  induction fuel with
  | zero => intro k e h; simp [ancestorChain] at h
  | succ f ih =>
    intro k e h
    rw [ancestorChain] at h
    rcases List.mem_cons.mp h with he | he
    · left; simp [he]
    · by_cases hfun : (k.contains '(' || k.contains '[') = true
      · rw [if_pos hfun] at he; cases he
      · rw [if_neg hfun] at he
        by_cases hg : k = strGlobal
        · rw [if_pos hg] at he; cases he
        · rw [if_neg hg] at he
          cases hdot : lastIndexOfDot k with
          | none =>
            rw [hdot] at he
            cases f with
            | zero => simp [ancestorChain] at he
            | succ f' =>
              rw [ancestorChain_global] at he
              simp at he
              right; exact he
          | some i =>
            rw [hdot] at he
            rcases ih (k.take i) e he with hl | hg'
            · left
              calc e.length ≤ (k.take i).length := hl
                _ ≤ k.length := by simp [List.length_take]
            · right; exact hg'

/-- Specification of `memoFinalize` on a key not yet in the cache. -/
theorem memoFinalize_spec (st : PreludeSt) (key : List Char)
    (init : InitExpr) (ref : List Char) (st' : PreludeSt)
    (hnone : lookupRef st.memoizedRefs key = none)
    (h : memoFinalize st key init = some (ref, st')) :
    lookupRef st'.memoizedRefs key = some ref ∧
    st'.preludeStmts = st.preludeStmts ++ [⟨ref, init⟩] ∧
    st'.memoizedRefs.length = st.memoizedRefs.length + 1 ∧
    (∀ k, k ≠ key →
      lookupRef st'.memoizedRefs k = lookupRef st.memoizedRefs k) := by
  unfold memoFinalize at h
  cases hg : NameGenerator.generate st.nameGen (some key) with
  | none => rw [hg] at h; cases h
  | some p =>
    cases p with
    | mk r ng' =>
      rw [hg] at h
      simp only [Option.some.injEq, Prod.mk.injEq] at h
      obtain ⟨h1, h2⟩ := h
      subst h1
      subst h2
      exact ⟨lookupRef_setRef_self _ _ _, rfl,
        setRef_length_new _ _ _ hnone,
        fun k hk => lookupRef_setRef_ne _ _ _ _ hk⟩

/-- Assembly step shared by the non-cached branches of the
`memoizeReference` invariant: combine the recursion's invariant
(`st` to `st1`, possibly trivial) with the `memoFinalize` step
(`st1` to `st'`). -/
theorem memoConclusions (st st1 st' : PreludeSt) (key ref : List Char)
    (chainTail : List (List Char))
    (iB : ∃ tail, st1.preludeStmts = st.preludeStmts ++ tail)
    (iC : st1.preludeStmts.length + st.memoizedRefs.length =
      st1.memoizedRefs.length + st.preludeStmts.length)
    (iD : ∀ k, lookupRef st1.memoizedRefs k ≠ lookupRef st.memoizedRefs k →
      k ∈ chainTail)
    (hlk : lookupRef st.memoizedRefs key = none)
    (hA : lookupRef st'.memoizedRefs key = some ref)
    (hB : ∃ e : PStmt, st'.preludeStmts = st1.preludeStmts ++ [e])
    (hC : st'.memoizedRefs.length = st1.memoizedRefs.length + 1)
    (hD : ∀ k, k ≠ key →
      lookupRef st'.memoizedRefs k = lookupRef st1.memoizedRefs k) :
    lookupRef st'.memoizedRefs key = some ref ∧
    (∃ tail, st'.preludeStmts = st.preludeStmts ++ tail) ∧
    st'.preludeStmts.length + st.memoizedRefs.length =
      st'.memoizedRefs.length + st.preludeStmts.length ∧
    (∀ k, lookupRef st'.memoizedRefs k ≠ lookupRef st.memoizedRefs k →
      k ∈ key :: chainTail) ∧
    (lookupRef st.memoizedRefs key = none →
      st.preludeStmts.length < st'.preludeStmts.length) ∧
    (∀ r0, lookupRef st.memoizedRefs key = some r0 →
      ref = r0 ∧ st' = st) := by
  obtain ⟨tail1, iB⟩ := iB
  obtain ⟨e, hB⟩ := hB
  have hlen' : st'.preludeStmts.length = st1.preludeStmts.length + 1 := by
    rw [hB]; simp
  have hlen1 : st1.preludeStmts.length =
      st.preludeStmts.length + tail1.length := by
    rw [iB]; simp
  refine ⟨hA, ⟨tail1 ++ [e], by rw [hB, iB, List.append_assoc]⟩,
    by omega, ?_, by omega, ?_⟩
  · intro k hk
    by_cases hkk : k = key
    · subst hkk; exact List.mem_cons_self _ _
    · have hk1 : lookupRef st1.memoizedRefs k ≠ lookupRef st.memoizedRefs k := by
        rw [← hD k hkk]; exact hk
      exact List.mem_cons_of_mem _ (iD k hk1)
  · intro r0 hr0
    rw [hlk] at hr0
    cases hr0

/-- Main invariant of `memoizeReference`: a successful call caches the
key under the returned identifier, only appends to the prelude, pushes
exactly one prelude declaration per newly memoized reference, only
memoizes keys on the ancestor chain, grows the prelude when the key was
uncached, and is the identity on a cached key. -/
theorem memoizeReferenceAux_spec :
    ∀ (fuel : Nat) (st : PreludeSt) (key ref : List Char) (st' : PreludeSt),
      memoizeReferenceAux fuel st key = some (ref, st') →
      lookupRef st'.memoizedRefs key = some ref ∧
      (∃ tail, st'.preludeStmts = st.preludeStmts ++ tail) ∧
      st'.preludeStmts.length + st.memoizedRefs.length =
        st'.memoizedRefs.length + st.preludeStmts.length ∧
      (∀ k, lookupRef st'.memoizedRefs k ≠ lookupRef st.memoizedRefs k →
        k ∈ ancestorChain fuel key) ∧
      (lookupRef st.memoizedRefs key = none →
        st.preludeStmts.length < st'.preludeStmts.length) ∧
      (∀ r0, lookupRef st.memoizedRefs key = some r0 →
        ref = r0 ∧ st' = st) := by
  intro fuel
  induction fuel with
  | zero => intro st key ref st' h; simp [memoizeReferenceAux] at h
  | succ f ih =>
    intro st key ref st' h
    rw [memoizeReferenceAux] at h
    split at h
    next r hlk =>
      -- cached key: return the cached identifier, touch nothing
      simp only [Option.some.injEq, Prod.mk.injEq] at h
      obtain ⟨h1, h2⟩ := h
      subst h1
      subst h2
      refine ⟨hlk, ⟨[], by simp⟩, by omega, fun k hk => absurd rfl hk,
        ?_, ?_⟩
      · intro hc
        rw [hlk] at hc
        cases hc
      · intro r0 hr0
        rw [hlk] at hr0
        simp only [Option.some.injEq] at hr0
        exact ⟨hr0, rfl⟩
    next hlk =>
      split at h
      next hfun =>
        -- funky-identifier branch
        obtain ⟨hA, hB, hC, hD⟩ := memoFinalize_spec st key _ ref st' hlk h
        have hchain : ancestorChain (f + 1) key = key :: [] := by
          rw [ancestorChain, if_pos hfun]
        rw [hchain]
        exact memoConclusions st st st' key ref []
          ⟨[], by simp⟩ (by omega) (fun k hk => absurd rfl hk)
          hlk hA ⟨_, hB⟩ hC hD
      next hfun =>
        split at h
        next hg =>
          -- key = "global"
          have hnone' : lookupRef ({ st with usesThis := true } :
              PreludeSt).memoizedRefs key = none := hlk
          obtain ⟨hA, hB, hC, hD⟩ :=
            memoFinalize_spec { st with usesThis := true } key _ ref st'
              hnone' h
          have hchain : ancestorChain (f + 1) key = key :: [] := by
            rw [ancestorChain, if_neg hfun, if_pos hg]
          rw [hchain]
          exact memoConclusions st { st with usesThis := true } st' key ref []
            ⟨[], by simp⟩ (Nat.add_comm _ _) (fun k hk => absurd rfl hk)
            hlk hA ⟨_, hB⟩ hC hD
        next hg =>
          split at h
          next hdot =>
            -- dotless key: recurse into "global"
            split at h
            next hrec => cases h
            next gref st1 hrec =>
              obtain ⟨iA, iB, iC, iD, iE, iF⟩ := ih st strGlobal gref st1 hrec
              have hst1key : lookupRef st1.memoizedRefs key = none := by
                by_contra hne2
                have hchanged : lookupRef st1.memoizedRefs key ≠
                    lookupRef st.memoizedRefs key := by
                  rw [hlk]; exact hne2
                have hmem := iD key hchanged
                cases f with
                | zero => simp [ancestorChain] at hmem
                | succ f' =>
                  rw [ancestorChain_global] at hmem
                  simp at hmem
                  exact hg hmem
              obtain ⟨hA, hB, hC, hD⟩ :=
                memoFinalize_spec st1 key _ ref st' hst1key h
              have hchain : ancestorChain (f + 1) key =
                  key :: ancestorChain f strGlobal := by
                rw [ancestorChain, if_neg hfun, if_neg hg, hdot]
              rw [hchain]
              exact memoConclusions st st1 st' key ref
                (ancestorChain f strGlobal) iB iC iD hlk hA ⟨_, hB⟩ hC hD
          next i hdot =>
            -- dotted key: recurse into the head before the last dot
            split at h
            next hrec => cases h
            next bref st1 hrec =>
              obtain ⟨iA, iB, iC, iD, iE, iF⟩ :=
                ih st (key.take i) bref st1 hrec
              have hilt : i < key.length := lastIndexOfDot_lt_length key i hdot
              have hst1key : lookupRef st1.memoizedRefs key = none := by
                by_contra hne2
                have hchanged : lookupRef st1.memoizedRefs key ≠
                    lookupRef st.memoizedRefs key := by
                  rw [hlk]; exact hne2
                rcases ancestorChain_len f (key.take i) key
                    (iD key hchanged) with hl | hgl
                · rw [List.length_take] at hl
                  omega
                · exact hg hgl
              obtain ⟨hA, hB, hC, hD⟩ :=
                memoFinalize_spec st1 key _ ref st' hst1key h
              have hchain : ancestorChain (f + 1) key =
                  key :: ancestorChain f (key.take i) := by
                rw [ancestorChain, if_neg hfun, if_neg hg, hdot]
              rw [hchain]
              exact memoConclusions st st1 st' key ref
                (ancestorChain f (key.take i)) iB iC iD hlk hA ⟨_, hB⟩ hC hD

/-! ### C9: `PreludeGenerator.memoizeReference` memoization -/

/-- C9, counterexample to the claim as stated: on a fresh
`PreludeGenerator`, the *first* call `memoizeReference("Object")` pushes
*two* var declarations onto the prelude (one for the newly memoized
`global` ancestor and one for `Object` itself), not exactly one. -/
theorem memoizeReference_single_decl_counterexample :
    (memoizeReference (freshPreludeSt false [])
        ['O', 'b', 'j', 'e', 'c', 't']).map
      (fun p => p.2.preludeStmts.length) = some 2 ∧ (2 : Nat) ≠ 1 :=
  ⟨rfl, by decide⟩

/-- C9 (amended).  `memoizeReference` is memoizing: a successful call
caches the key under the returned identifier and pushes exactly one
prelude var declaration per reference it newly memoizes (the key itself
and each not-yet-memoized ancestor) — so a first call pushes at least
one declaration — while a call on an already-cached key returns the
identical cached identifier and leaves the state unchanged; in
particular calling it twice equals calling it once. -/
theorem memoizeReference_memoizing (st : PreludeSt) (key ref : List Char)
    (st' : PreludeSt) (h : memoizeReference st key = some (ref, st')) :
    lookupRef st'.memoizedRefs key = some ref ∧
    (∃ tail, st'.preludeStmts = st.preludeStmts ++ tail) ∧
    st'.preludeStmts.length + st.memoizedRefs.length =
      st'.memoizedRefs.length + st.preludeStmts.length ∧
    (lookupRef st.memoizedRefs key = none →
      st.preludeStmts.length < st'.preludeStmts.length) ∧
    (∀ r0, lookupRef st.memoizedRefs key = some r0 →
      ref = r0 ∧ st' = st) ∧
    memoizeReference st' key = some (ref, st') := by
  obtain ⟨hA, hB, hC, _, hE, hF⟩ := memoizeReferenceAux_spec _ _ _ _ _ h
  refine ⟨hA, hB, hC, hE, hF, ?_⟩
  show memoizeReferenceAux (key.count '.' + 1 + 1) st' key = some (ref, st')
  rw [memoizeReferenceAux, hA]

/-- Witness for C9: the state reached by memoizing `Object` from a fresh
prelude generator re-memoizes `Object` to the same identifier with no
state change. -/
theorem memoizeReference_memoizing_witness :
    memoizeReference
      { preludeStmts :=
          [⟨['_', '$', '0'], .thisE⟩,
           ⟨['_', '$', '1'], .member ['_', '$', '0']
              ['O', 'b', 'j', 'e', 'c', 't']⟩],
        memoizedRefs :=
          [(['g', 'l', 'o', 'b', 'a', 'l'], ['_', '$', '0']),
           (['O', 'b', 'j', 'e', 'c', 't'], ['_', '$', '1'])],
        nameGen := ⟨['_', '$'], 2, false, [], []⟩,
        usesThis := true } ['O', 'b', 'j', 'e', 'c', 't'] =
    some (['_', '$', '1'],
      { preludeStmts :=
          [⟨['_', '$', '0'], .thisE⟩,
           ⟨['_', '$', '1'], .member ['_', '$', '0']
              ['O', 'b', 'j', 'e', 'c', 't']⟩],
        memoizedRefs :=
          [(['g', 'l', 'o', 'b', 'a', 'l'], ['_', '$', '0']),
           (['O', 'b', 'j', 'e', 'c', 't'], ['_', '$', '1'])],
        nameGen := ⟨['_', '$'], 2, false, [], []⟩,
        usesThis := true }) :=
  (memoizeReference_memoizing (freshPreludeSt false [])
    ['O', 'b', 'j', 'e', 'c', 't'] ['_', '$', '1'] _ (by rfl)).2.2.2.2.2

/-! ### C5: `Generator.serialize` ordering, omission and declaration -/

/-- Argument-serialization events contribute no emissions. -/
theorem filterMap_emittedOf_args (args : List Value) :
    List.filterMap SEvent.emittedOf (args.map SEvent.serializedArg) = [] := by
  induction args with
  | nil => simp
  | cons a rest ih => simp [SEvent.emittedOf, ih]

/-- C5.  `Generator.serialize` emits entries in exactly body order,
skipping an entry iff it is `isPure`, declares an abstract value, and
`canOmit` reports that value omittable; and for every emitted entry
that declares an abstract value, `context.declare` is called on it
immediately after the emission. -/
theorem generator_serialize_order_skip_declare
    (body : List GenEntry) (canOmit : Nat → Bool) :
    (Generator.serialize body canOmit).filterMap SEvent.emittedOf =
      body.filter (fun e => !entryOmitted canOmit e) ∧
    (∀ e ∈ body, entryOmitted canOmit e = true ↔
      (e.isPure = true ∧ ∃ d, e.declared = some d ∧ canOmit d = true)) ∧
    (∀ e ∈ body, ∀ d : Nat, e.declared = some d →
      entryOmitted canOmit e = false →
      ∃ l1 l2, Generator.serialize body canOmit =
        l1 ++ [SEvent.emitted e, SEvent.declared d] ++ l2) := by
  refine ⟨?_, ?_, ?_⟩
  · induction body with
    | nil => simp [Generator.serialize]
    | cons e rest ih =>
      rw [Generator.serialize]
      by_cases he : entryOmitted canOmit e
      · simp [he, ih]
      · rw [if_neg he]
        simp only [List.filterMap_append, filterMap_emittedOf_args,
          List.filter_cons, he, Bool.not_false, if_true]
        cases hd : e.declared with
        | none => simp [SEvent.emittedOf, ih, he]
        | some d => simp [SEvent.emittedOf, ih, he]
  · intro e _
    unfold entryOmitted
    cases hd : e.declared with
    | none => simp
    | some d => simp [Bool.and_eq_true]
  · induction body with
    | nil => intro e he; cases he
    | cons e0 rest ih =>
      intro e hmem d hd hnoom
      rcases List.mem_cons.mp hmem with heq | htl
      · subst heq
        refine ⟨e.args.map SEvent.serializedArg,
          Generator.serialize rest canOmit, ?_⟩
        rw [Generator.serialize, if_neg (by rw [hnoom]; simp), hd]
        simp
      · obtain ⟨l1, l2, hdec⟩ := ih e htl d hd hnoom
        rw [Generator.serialize]
        exact ⟨(if entryOmitted canOmit e0 then []
          else (e0.args.map SEvent.serializedArg) ++ [SEvent.emitted e0] ++
            (match e0.declared with
             | some d0 => [SEvent.declared d0]
             | none => [])) ++ l1, l2, by rw [hdec]; simp⟩

/-- Witness for C5 at a concrete body: a pure omittable declaring entry
between two others is dropped, the rest are emitted in order. -/
theorem generator_serialize_witness :
    (Generator.serialize
        [⟨none, [], .callExpr, false⟩,
         ⟨some 7, [], .varDeclaration ['a'], true⟩,
         ⟨some 8, [], .varDeclaration ['b'], false⟩]
        (fun _ => true)).filterMap SEvent.emittedOf =
      [⟨none, [], .callExpr, false⟩,
       ⟨some 8, [], .varDeclaration ['b'], false⟩] :=
  (generator_serialize_order_skip_declare
    [⟨none, [], .callExpr, false⟩,
     ⟨some 7, [], .varDeclaration ['a'], true⟩,
     ⟨some 8, [], .varDeclaration ['b'], false⟩]
    (fun _ => true)).1

/-! ### C6: `Generator.derive` entry shape -/

/-- C6.  A successful `derive` appends exactly the variable-declaration
entry for the fresh abstract value when `skipInvariant` is set, and
appends additionally the `typeof`-check invariant guard right after the
declaration whenever the types domain determines a `typeof` string. -/
theorem generator_derive_entries (g : GenSt) (types : TypeTag)
    (args : List Value) (opts : Option DeriveOpts) (res : Value) (g' : GenSt)
    (h : Generator.derive g types args opts = .ok (res, g')) :
    (skipInvariantB opts = true →
      ∃ id, g'.body = g.body ++
        [⟨some g.nextAbsId, args, .varDeclaration id, isPureB opts⟩]) ∧
    (skipInvariantB opts = false → ∀ ts, typeofStringOf types = some ts →
      ∃ id, g'.body = g.body ++
        [⟨some g.nextAbsId, args, .varDeclaration id, isPureB opts⟩,
         ⟨none, [res, res], .invariantGuard (some ts), false⟩]) := by
  unfold Generator.derive at h
  split at h
  next => cases h
  next idName ng' hg =>
    split at h
    next hskip =>
      simp only [Except.ok.injEq, Prod.mk.injEq] at h
      obtain ⟨hres, hg'⟩ := h
      subst hg'
      refine ⟨fun _ => ⟨idName, rfl⟩, fun hns => ?_⟩
      rw [hns] at hskip
      cases hskip
    next hskip =>
      have hskip' : skipInvariantB opts = false := by
        cases hsk : skipInvariantB opts
        · rfl
        · exact absurd hsk hskip
      refine ⟨fun hs => absurd (hskip'.symm.trans hs) Bool.false_ne_true,
        fun _ ts hts => ?_⟩
      cases types <;> simp only [typeofStringOf, Option.some.injEq] at hts h <;>
        first
          | exact absurd hts (by simp)
          | (subst hts
             simp only [Except.ok.injEq, Prod.mk.injEq] at h
             obtain ⟨hres, hg'⟩ := h
             subst hg'
             subst hres
             exact ⟨idName,
               by simp [Generator.emitInvariant, deriveG2, deriveDeclEntry]⟩)

/-- Witness for C6: `derive` with `skipInvariant` on a string-typed
domain appends exactly one declaration entry. -/
theorem generator_derive_witness :
    skipInvariantB (some { skipInvariant := some true }) = true ∧
    ∃ id : List Char,
      (({ body := [⟨some 0, [], .varDeclaration ['_', '$', '0'], false⟩],
          nameGen := ⟨['_', '$'], 1, false, [], []⟩,
          derivedIds := [(['_', '$', '0'], [])],
          nextAbsId := 1 } : GenSt)).body =
        ([] : List GenEntry) ++
          [⟨some 0, [], .varDeclaration id, false⟩] := by
  refine ⟨by decide, ?_⟩
  have h := (generator_derive_entries
    ⟨[], ⟨['_', '$'], 0, false, [], []⟩, [], 0⟩ .stringT []
    (some { skipInvariant := some true }) (Value.absVal 0 none [])
    ⟨[⟨some 0, [], .varDeclaration ['_', '$', '0'], false⟩],
      ⟨['_', '$'], 1, false, [], []⟩, [(['_', '$', '0'], [])], 1⟩
    rfl).1 (by decide)
  exact h

/-! ### C10: `Generator.emitDefineProperty` branch shapes -/

/-- C10.  A descriptor that is enumerable, configurable and writable
with a value present is emitted exactly as `emitPropertyAssignment`
(one entry with argument vector `[object, value]`); any other
descriptor is emitted as one define-property entry with argument vector
`[object, value-or-undefined, get-or-undefined, set-or-undefined]`
built from the descriptor. -/
theorem generator_emitDefineProperty_spec (g : GenSt) (object : Value)
    (key : String) (desc : Descriptor) :
    ((truthyB desc.enumerable && truthyB desc.configurable &&
        truthyB desc.writable && desc.value.isSome) = true →
      Generator.emitDefineProperty g object key desc =
        Generator.emitPropertyAssignment g object key
          (desc.value.getD .undef) ∧
      Generator.emitPropertyAssignment g object key
          (desc.value.getD .undef) =
        { g with body := g.body ++
            [⟨none, [object, desc.value.getD .undef],
              .propertyAssignment key, false⟩] }) ∧
    ((truthyB desc.enumerable && truthyB desc.configurable &&
        truthyB desc.writable && desc.value.isSome) = false →
      Generator.emitDefineProperty g object key desc =
        { g with body := g.body ++
            [⟨none, [object, desc.value.getD .undef,
                desc.getFn.getD .undef, desc.setFn.getD .undef],
              .definePropertyBody key desc, false⟩] }) := by
  constructor
  · intro hc
    unfold Generator.emitDefineProperty
    rw [if_pos hc]
    exact ⟨rfl, rfl⟩
  · intro hc
    unfold Generator.emitDefineProperty
    rw [if_neg (by rw [hc]; simp)]

/-- Witness for C10: both branches at concrete descriptors. -/
theorem generator_emitDefineProperty_witness :
    (Generator.emitDefineProperty
        ⟨[], ⟨['_', '$'], 0, false, [], []⟩, [], 0⟩ (Value.objRef 3) "x"
        { writable := some true, enumerable := some true,
          configurable := some true, value := some (Value.strVal "v") } =
      Generator.emitPropertyAssignment
        ⟨[], ⟨['_', '$'], 0, false, [], []⟩, [], 0⟩ (Value.objRef 3) "x"
        (Value.strVal "v")) ∧
    (Generator.emitDefineProperty
        ⟨[], ⟨['_', '$'], 0, false, [], []⟩, [], 0⟩ (Value.objRef 3) "y"
        { writable := some false, value := some (Value.strVal "w") } =
      { body := [⟨none, [Value.objRef 3, Value.strVal "w", Value.undef,
          Value.undef], .definePropertyBody "y"
            { writable := some false, value := some (Value.strVal "w") },
          false⟩],
        nameGen := ⟨['_', '$'], 0, false, [], []⟩,
        derivedIds := [], nextAbsId := 0 }) := by
  constructor
  · exact ((generator_emitDefineProperty_spec _ _ _ _).1 (by decide)).1
  · exact (generator_emitDefineProperty_spec
      ⟨[], ⟨['_', '$'], 0, false, [], []⟩, [], 0⟩ (Value.objRef 3) "y"
      { writable := some false, value := some (Value.strVal "w") }).2
      (by decide)

/-! ### C7: `parse` error classification -/

/-- C7.  A `SyntaxError` whose message contains one of the three fixed
invalid-left-hand-side substrings yields a ThrowCompletion carrying a
ReferenceError object; any other `SyntaxError` yields a ThrowCompletion
carrying a SyntaxError object; non-`SyntaxError` exceptions are
rethrown unchanged. -/
theorem parse_error_classification (msg : List Char) (loc e : Nat) :
    (referenceErrorMessages.any (fun m => containsSubstr msg m) = true →
      parse (.synExn msg loc) = .throwCompletion .refErrObj msg loc) ∧
    (referenceErrorMessages.any (fun m => containsSubstr msg m) = false →
      parse (.synExn msg loc) = .throwCompletion .synErrObj msg loc) ∧
    parse (.otherExn e) = .rethrown e := by
  refine ⟨fun h => ?_, fun h => ?_, rfl⟩
  · simp [parse, h]
  · simp [parse, h]

/-- Witness for C7: the exact prefix-operation message is classified as
a ReferenceError, and an unrelated message as a SyntaxError. -/
theorem parse_error_classification_witness :
    parse (.synExn ("Invalid left-hand side in prefix operation").toList 5)
      = .throwCompletion .refErrObj
          ("Invalid left-hand side in prefix operation").toList 5 ∧
    parse (.synExn ("Unexpected token").toList 6)
      = .throwCompletion .synErrObj ("Unexpected token").toList 6 := by
  constructor
  · exact (parse_error_classification
      ("Invalid left-hand side in prefix operation").toList 5 0).1 (by decide)
  · exact (parse_error_classification
      ("Unexpected token").toList 6 0).2.1 (by decide)

/-! ### Supporting lemmas about the heap model -/

/-- `setObj` then `getObj`. -/
theorem getObj_setObj (h : Heap) (i : Nat) (o : ObjData) (j : Nat) :
    (h.setObj i o).getObj j = if i = j then some o else h.getObj j := by
  induction h with
  | nil => by_cases hij : i = j <;> simp [Heap.setObj, Heap.getObj, hij]
  | cons ko rest ih =>
    cases ko with
    | mk k o0 =>
      by_cases hk : k = i
      · subst hk
        by_cases hij : k = j <;> simp [Heap.setObj, Heap.getObj, hij]
      · by_cases hij : i = j
        · subst hij
          simp [Heap.setObj, Heap.getObj, hk, ih]
        · simp only [Heap.setObj, hk, if_false, Heap.getObj]
          by_cases hkj : k = j <;> simp [hkj, ih, hij]

/-- `mapObj` through `getObj`. -/
theorem getObj_mapObj (h : Heap) (i : Nat) (f : ObjData → ObjData)
    (j : Nat) :
    (h.mapObj i f).getObj j =
      if i = j then (h.getObj i).map f else h.getObj j := by
  unfold Heap.mapObj
  cases hi : h.getObj i with
  | none =>
    by_cases hij : i = j
    · subst hij; simp [hi]
    · simp [hij]
  | some o =>
    rw [getObj_setObj]
    by_cases hij : i = j <;> simp [hij, hi]

/-- `mapObj` preserves which objects exist. -/
theorem isSome_getObj_mapObj (h : Heap) (i : Nat) (f : ObjData → ObjData)
    (j : Nat) :
    ((h.mapObj i f).getObj j).isSome = ((h.getObj j)).isSome := by
  rw [getObj_mapObj]
  by_cases hij : i = j
  · subst hij
    cases h.getObj i <;> simp
  · simp [hij]

/-- `mapObj` with a props-preserving function preserves the enumerable
own properties of every object. -/
theorem enumProps_mapObj (h : Heap) (i : Nat) (f : ObjData → ObjData)
    (hf : ∀ o, (f o).props = o.props) (j : Nat) :
    (h.mapObj i f).enumerableOwnProps j = h.enumerableOwnProps j := by
  unfold Heap.enumerableOwnProps
  rw [getObj_mapObj]
  by_cases hij : i = j
  · subst hij
    cases h.getObj i <;> simp [hf]
  · simp [hij]

/-- Writing a property and reading it back. -/
theorem lookupProp_setPropL_self (props : List (String × Value))
    (k : String) (v : Value) :
    lookupProp (setPropL props k v) k = some v := by
  induction props with
  | nil => simp [setPropL, lookupProp]
  | cons kv rest ih =>
    cases kv with
    | mk k0 v0 =>
      by_cases hk : k0 = k
      · simp [setPropL, lookupProp, hk]
      · simp [setPropL, lookupProp, hk, ih]

/-- Writing a property leaves other keys alone. -/
theorem lookupProp_setPropL_ne (props : List (String × Value))
    (k : String) (v : Value) (k' : String) (h : k' ≠ k) :
    lookupProp (setPropL props k v) k' = lookupProp props k' := by
  induction props with
  | nil => simp [setPropL, lookupProp, Ne.symm h]
  | cons kv rest ih =>
    cases kv with
    | mk k0 v0 =>
      by_cases hk : k0 = k
      · subst hk
        simp [setPropL, lookupProp, Ne.symm h]
      · simp [setPropL, lookupProp, hk, ih]

/-- `$Set` then read on the written key. -/
theorem getProp_setProp_self (h : Heap) (i : Nat) (k : String) (v : Value)
    (hex : ((h.getObj i)).isSome = true) :
    (h.setProp i k v).getProp i k = some v := by
  unfold Heap.setProp Heap.getProp
  rw [getObj_mapObj, if_pos rfl]
  cases hi : h.getObj i with
  | none => rw [hi] at hex; cases hex
  | some o => simp [lookupProp_setPropL_self]

/-- `$Set` then read on another key of the same object. -/
theorem getProp_setProp_ne (h : Heap) (i : Nat) (k : String) (v : Value)
    (k' : String) (hk : k' ≠ k) :
    (h.setProp i k v).getProp i k' = h.getProp i k' := by
  unfold Heap.setProp Heap.getProp
  rw [getObj_mapObj, if_pos rfl]
  cases hi : h.getObj i with
  | none => simp
  | some o => simp [lookupProp_setPropL_ne _ _ _ _ hk]

/-- A fold of `$Set`s does not touch keys outside the written pairs. -/
theorem fold_setProp_not_mem (pairs : List (String × Value)) :
    ∀ (h : Heap) (i : Nat) (k : String), k ∉ pairs.map Prod.fst →
      Heap.getProp
        (pairs.foldl (fun hh kv => hh.setProp i kv.1 kv.2) h) i k =
      h.getProp i k := by
  induction pairs with
  | nil => intro h i k _; rfl
  | cons kv rest ih =>
    intro h i k hk
    cases kv with
    | mk k0 v0 =>
      simp only [List.map_cons, List.mem_cons] at hk
      push_neg at hk
      rw [List.foldl_cons, ih _ _ _ hk.2,
        getProp_setProp_ne _ _ _ _ _ hk.1]

/-- Fold of `$Set`s preserves which objects exist. -/
theorem fold_setProp_isSome (pairs : List (String × Value)) :
    ∀ (h : Heap) (i j : Nat),
      (((pairs.foldl (fun hh kv => hh.setProp i kv.1 kv.2) h).getObj
        j)).isSome = ((h.getObj j)).isSome := by
  induction pairs with
  | nil => intro h i j; rfl
  | cons kv rest ih =>
    intro h i j
    rw [List.foldl_cons, ih]
    unfold Heap.setProp
    rw [isSome_getObj_mapObj]

/-- Copying a pair list with distinct keys onto an existing object makes
every pair readable on the target. -/
theorem fold_setProp_mem (pairs : List (String × Value)) :
    ∀ (h : Heap) (i : Nat), ((h.getObj i)).isSome = true →
      (pairs.map Prod.fst).Nodup →
      ∀ k v, (k, v) ∈ pairs →
        Heap.getProp
          (pairs.foldl (fun hh kv => hh.setProp i kv.1 kv.2) h) i k =
        some v := by
  induction pairs with
  | nil => intro h i _ _ k v hkv; cases hkv
  | cons kv rest ih =>
    intro h i hex hnd k v hkv
    cases kv with
    | mk k0 v0 =>
      simp only [List.map_cons, List.nodup_cons] at hnd
      rcases List.mem_cons.mp hkv with heq | htl
      · obtain ⟨hk, hv⟩ := Prod.mk.injEq _ _ _ _ ▸ heq
        subst hk
        subst hv
        rw [List.foldl_cons, fold_setProp_not_mem rest _ _ _ hnd.1]
        exact getProp_setProp_self _ _ _ _ hex
      · rw [List.foldl_cons]
        refine ih _ _ ?_ hnd.2 _ _ htl
        unfold Heap.setProp
        rw [isSome_getObj_mapObj]
        exact hex

/-! ### C2: unsupported for-in head reports PP0013 and aborts -/

/-- C2.  When the head of a for-in evaluates to an abstract value that
is not both a partial and a simple object, the evaluator hands the
realm's error handler the PP0013 `CompilerDiagnostic` (of FatalError
severity) and throws `FatalError` — the `.fatal` outcome — and in
particular never returns normally, whatever the left-hand side is. -/
theorem forIn_abstract_unsupported_fatal (left : LeftKind) (aid : Nat)
    (p s : Bool) (single : Option Nat) (eff : EffectsResult)
    (st : InterpSt) (h : ¬(p = true ∧ s = true)) :
    forInEvaluate left (.abstractR aid p s single) eff st =
      .fatal pp0013 ∧
    pp0013.code = "PP0013" ∧ pp0013.severity = .fatalError := by
  refine ⟨?_, rfl, rfl⟩
  cases left with
  | varDecl names =>
    have hps : ((KeyResult.abstractR aid p s single).isPartialObjB st.heap &&
        (KeyResult.abstractR aid p s single).isSimpleObjB st.heap) = false := by
      simp only [KeyResult.isPartialObjB, KeyResult.isSimpleObjB]
      cases p <;> cases s <;> simp_all
    simp [forInEvaluate, hps]
  | lexicalDecl => rfl
  | lhsExpr => rfl

/-- Witness for C2: a partial-but-not-simple abstract head aborts with
PP0013. -/
theorem forIn_abstract_unsupported_fatal_witness :
    forInEvaluate (.varDecl ["k"]) (.abstractR 9 true false none)
      ⟨true, true, 0, [], 0⟩ ⟨[], [], 0⟩ = .fatal pp0013 ∧
    pp0013.code = "PP0013" ∧ pp0013.severity = .fatalError :=
  forIn_abstract_unsupported_fatal (.varDecl ["k"]) 9 true false none
    ⟨true, true, 0, [], 0⟩ ⟨[], [], 0⟩ (by simp)

/-! ### C3: accepted residual for-in copies known keys and emits one
loop entry -/

/-- C3.  For a for-in over a partial & simple object whose speculative
body evaluation is accepted as the single unknown-property assignment
`target[k] = source[k]` with the iterated object as the source, the
evaluator pushes exactly one residual for-in loop entry onto the
realm's generator, copies every enumerable own key/value pair of the
source known at build time onto the target via `$Set`, and returns
`undefined`. -/
theorem forIn_residual_copy (kr : KeyResult) (eff : EffectsResult)
    (st : InterpSt) (n : String) (pe : PropEntry) (tgt src : Nat)
    (hpar : kr.isPartialObjB st.heap = true)
    (hsim : kr.isSimpleObjB st.heap = true)
    (hacc : effAccepted eff = true)
    (hco : eff.createdObjSize = 0)
    (hprops : eff.properties = [pe])
    (hmatch : matchPropEntry st.nextAbsId pe = .found (some tgt) (some src))
    (hunwrap : unwrapOb kr = .objRef src)
    (hsrcp : ((((st.heap.makeSimple tgt).makePartial tgt).getObj src).map
      (fun o => o.isPartialObj)).getD false = true)
    (htgt : ((st.heap.getObj tgt)).isSome = true)
    (hnd : ((st.heap.enumerableOwnProps src).map Prod.fst).Nodup) :
    ∃ st' : InterpSt,
      forInEvaluate (.varDecl [n]) kr eff st = .ok .undef st' ∧
      st'.genBody = st.genBody ++ [forInLoopEntry (.objRef src) tgt src n] ∧
      st'.nextAbsId = st.nextAbsId + 1 ∧
      ∀ kv ∈ st.heap.enumerableOwnProps src,
        st'.heap.getProp tgt kv.1 = some kv.2 := by
  have hpp : ∀ (o : ObjData),
      (({ o with isSimpleObj := true } : ObjData)).props = o.props :=
    fun _ => rfl
  have hpp2 : ∀ (o : ObjData),
      (({ o with isPartialObj := true } : ObjData)).props = o.props :=
    fun _ => rfl
  have hpp3 : ∀ (o : ObjData),
      (({ o with isPartialObj := false } : ObjData)).props = o.props :=
    fun _ => rfl
  have hpairs :
      (((st.heap.makeSimple tgt).makePartial tgt).makeNotPartial
        src).enumerableOwnProps src = st.heap.enumerableOwnProps src := by
    unfold Heap.makeNotPartial Heap.makePartial Heap.makeSimple
    rw [enumProps_mapObj _ _ _ hpp3, enumProps_mapObj _ _ _ hpp2,
      enumProps_mapObj _ _ _ hpp]
  have hex3 :
      ((((((st.heap.makeSimple tgt).makePartial tgt).makeNotPartial
        src).makePartial src).getObj tgt)).isSome = true := by
    unfold Heap.makeNotPartial Heap.makePartial Heap.makeSimple
    rw [isSome_getObj_mapObj, isSome_getObj_mapObj, isSome_getObj_mapObj,
      isSome_getObj_mapObj]
    exact htgt
  refine ⟨⟨((((st.heap.makeSimple tgt).makePartial tgt).makeNotPartial
        src).enumerableOwnProps src).foldl
      (fun hh kv => hh.setProp tgt kv.1 kv.2)
      ((((st.heap.makeSimple tgt).makePartial tgt).makeNotPartial
        src).makePartial src),
    st.genBody ++ [forInLoopEntry (.objRef src) tgt src n],
    st.nextAbsId + 1⟩, ?_, rfl, rfl, ?_⟩
  · simp only [forInEvaluate]
    rw [if_pos (show (kr.isPartialObjB st.heap &&
        kr.isSimpleObjB st.heap) = true by simp [hpar, hsim])]
    simp only [emitResidualLoopIfSafe, hsim, hacc, hco, hprops, hmatch,
      hunwrap, if_true, Bool.true_eq_false, if_false]
    simp [hsrcp]
  · intro kv hkv
    rw [hpairs]
    exact fold_setProp_mem _ _ _ hex3 hnd kv.1 kv.2 hkv

/-- Witness for C3: copying `{a: "x"}` from a concrete partial & simple
source object onto a fresh target. -/
theorem forIn_residual_copy_witness :
    ∃ st' : InterpSt,
      forInEvaluate (.varDecl ["k"]) (.concrete 1)
        ⟨true, true, 0,
          [⟨0, true, some { value := some (.absVal 50 none
            [.absVal 51 (some "template for property name condition") [],
             .absVal 52 (some "sentinel member expression")
               [.objRef 1, .absVal 100 none [], .undef],
             .undef]) }⟩], 0⟩
        ⟨[(0, ⟨[], false, false⟩),
          (1, ⟨[("a", .strVal "x")], true, true⟩)], [], 100⟩ =
        .ok .undef st' ∧
      st'.genBody = [] ++ [forInLoopEntry (.objRef 1) 0 1 "k"] ∧
      st'.nextAbsId = 100 + 1 ∧
      ∀ kv ∈ Heap.enumerableOwnProps
          [(0, ⟨[], false, false⟩),
           (1, ⟨[("a", .strVal "x")], true, true⟩)] 1,
        st'.heap.getProp 0 kv.1 = some kv.2 :=
  forIn_residual_copy (.concrete 1)
    ⟨true, true, 0,
      [⟨0, true, some { value := some (.absVal 50 none
        [.absVal 51 (some "template for property name condition") [],
         .absVal 52 (some "sentinel member expression")
           [.objRef 1, .absVal 100 none [], .undef],
         .undef]) }⟩], 0⟩
    ⟨[(0, ⟨[], false, false⟩),
      (1, ⟨[("a", .strVal "x")], true, true⟩)], [], 100⟩
    "k" ⟨0, true, some { value := some (.absVal 50 none
        [.absVal 51 (some "template for property name condition") [],
         .absVal 52 (some "sentinel member expression")
           [.objRef 1, .absVal 100 none [], .undef],
         .undef]) }⟩ 0 1
    rfl rfl rfl rfl rfl
    (by simp [matchPropEntry, findSourceObject, Value.isAbsWithId])
    rfl rfl rfl
    (by simp [Heap.enumerableOwnProps, Heap.getObj])

/-! ### C4: rejected residual body shape -/

/-- C4, counterexample to the claim as stated: a for-in over a partial
& simple abstract object whose speculative body evaluation is rejected
(here: its generator fragment is nonempty) produces the PP0013
diagnostic with FatalError — not RecoverableError — severity, and
interpretation aborts with `FatalError`. -/
theorem forIn_rejected_recoverable_counterexample :
    forInEvaluate (.varDecl ["k"]) (.abstractR 9 true true none)
      ⟨true, false, 0, [], 0⟩ ⟨[], [], 0⟩ = .fatal pp0013 ∧
    pp0013.severity = .fatalError ∧
    Severity.fatalError ≠ Severity.recoverableError :=
  ⟨rfl, rfl, by decide⟩

/-- C4 (amended).  For a for-in over a partial & simple object whose
speculatively evaluated body is not of the accepted shape
`target[k] = source[k]` (the guard fails, or the walk over the single
modified property finds no target or no source), the engine raises the
PP0013 diagnostic with *FatalError* severity and throws `FatalError`,
aborting interpretation. -/
theorem forIn_rejected_fatal (kr : KeyResult) (eff : EffectsResult)
    (st : InterpSt) (n : String)
    (hpar : kr.isPartialObjB st.heap = true)
    (hsim : kr.isSimpleObjB st.heap = true)
    (hrej : effAccepted eff = false ∨
      (eff.createdObjSize = 0 ∧ ∃ p, eff.properties = [p] ∧
        ∃ t s, matchPropEntry st.nextAbsId p = .found t s ∧
          (t = none ∨ s = none))) :
    forInEvaluate (.varDecl [n]) kr eff st = .fatal pp0013 ∧
    pp0013.severity = .fatalError := by
  refine ⟨?_, rfl⟩
  simp only [forInEvaluate]
  rw [hpar, hsim]
  simp only [Bool.and_self, if_true]
  unfold emitResidualLoopIfSafe
  rw [hsim]
  simp only [Bool.true_eq_false, if_false, List.length_cons,
    List.length_nil]
  rw [if_neg (by omega)]
  rcases hrej with hacc | ⟨hco, p, hp, t, s, hmatch, hts⟩
  · rw [if_neg (by rw [hacc]; simp)]
  · by_cases hacc : effAccepted eff = true
    · rw [if_pos hacc, if_neg (by omega)]
      simp only [hp]
      rw [hmatch]
      rcases hts with ht | hs
      · subst ht
        cases s <;> rfl
      · subst hs
        cases t <;> rfl
    · rw [if_neg hacc]

/-- Witness for the amended C4: a body whose write goes to a known
property (not the unknown-property binding) is rejected fatally. -/
theorem forIn_rejected_fatal_witness :
    forInEvaluate (.varDecl ["k"]) (.abstractR 9 true true none)
      ⟨true, true, 0, [⟨0, false, none⟩], 0⟩ ⟨[], [], 3⟩ =
      .fatal pp0013 ∧
    pp0013.severity = .fatalError :=
  forIn_rejected_fatal (.abstractR 9 true true none)
    ⟨true, true, 0, [⟨0, false, none⟩], 0⟩ ⟨[], [], 3⟩ "k" rfl rfl
    (Or.inr ⟨rfl, ⟨0, false, none⟩, rfl, none, none, rfl, Or.inl rfl⟩)

end PrepackSpec
